import Mathlib

/-!
Verification development for the juno backtesting core (Rust sources under
`src/juno/src`).  Floating-point (`f64`) values of the source are embedded as
exact rationals (`ℚ`); machine integers (`u64`, `u32`) are embedded as `ℕ`
(overflow does not matter on the ranges the claims exercise).  Trading
sub-policies (Signal / StopLoss / TakeProfit trait objects and the `Changed`
advice debouncer, whose module sources are not present) are abstracted as an
oracle giving, for each tick, the debounced advice and the four hit flags that
`tick` in `trading/traders.rs` reads; the engine itself is embedded
faithfully from `trading/traders.rs`.  The helpers of the missing module
`math.rs` are modelled from the spec where noted.  Rust `panic!` sites are
embedded as `Option.none` outcomes.
-/

namespace Juno

/-- Modelled from the spec: `math.rs` is not among the sources.  The spec's
rounding rule `round_down(x, p) = floor(x * 10^p) / 10^p`. -/
def round_down (x : ℚ) (p : ℕ) : ℚ := (⌊x * 10 ^ p⌋ : ℚ) / 10 ^ p

/-- Modelled from the spec: `math.rs` is not among the sources.  The spec's
rounding rule `round_half_up(x, p) = floor(x * 10^p + 0.5) / 10^p`. -/
def round_half_up (x : ℚ) (p : ℕ) : ℚ := (⌊x * 10 ^ p + 1 / 2⌋ : ℚ) / 10 ^ p

/-- Modelled from the spec: `math.rs` is not among the sources.  Ceiling of
`x` to a multiple of `m` (used by `close_short_position` and by
`Timestamp::ceil` for sub-week intervals). -/
def ceil_multiple (x m : ℕ) : ℕ := (x + m - 1) / m * m

/-- Modelled from the spec: `math.rs` is not among the sources.  Flooring of
`x` to a multiple of `m` (used by `Timestamp::floor` for sub-week
intervals). -/
def floor_multiple (x m : ℕ) : ℕ := x / m * m

/-- Modelled from the spec: `math.rs` is not among the sources.  Week
alignment flooring anchored at offset `o` (the spec: week alignment uses
offset 345_600_000 ms, anchoring Monday); stated over `ℤ` so that the
anchored grid extends below the offset. -/
def floor_multiple_offset (x : ℤ) (m : ℕ) (o : ℤ) : ℤ := (x - o) / m * m + o

/-- Modelled from the spec: `math.rs` is not among the sources.  Week
alignment ceiling anchored at offset `o`. -/
def ceil_multiple_offset (x : ℤ) (m : ℕ) (o : ℤ) : ℤ :=
  (x - o + m - 1) / m * m + o

/-- Price filter of `filters.rs` (`Price { min, max, step }`). -/
structure Price where
  min : ℚ
  max : ℚ
  step : ℚ
deriving DecidableEq

/-- Rounding a price down under the price filter (`Price::round_down`). -/
def Price.round_down (f : Price) (price : ℚ) : ℚ :=
  if price < f.min then 0
  else
    let price1 := if 0 < f.max then Min.min price f.max else price
    if 0 < f.step then (⌊price1 / f.step⌋ : ℚ) * f.step else price1

/-- Size filter of `filters.rs` (`Size { min, max, step }`). -/
structure Size where
  min : ℚ
  max : ℚ
  step : ℚ
deriving DecidableEq

/-- Rounding a size down under the size filter (`Size::round_down`): zero if
below `min`, clamped to `max` only when `max > 0`, floored to a multiple of
`step` only when `step > 0`. -/
def Size.round_down (f : Size) (size : ℚ) : ℚ :=
  if size < f.min then 0
  else
    let size1 := if 0 < f.max then Min.min size f.max else size
    if 0 < f.step then (⌊size1 / f.step⌋ : ℚ) * f.step else size1

/-- Rounding a size up under the size filter (`Size::round_up`): zero if below
`min`, then unconditionally clamped to `max` and unconditionally ceiled to a
multiple of `step` (the guards of `round_down` are absent in the source; the
`f64` division by a zero step, which yields NaN in Rust, degenerates to `0`
in this rational embedding). -/
def Size.round_up (f : Size) (size : ℚ) : ℚ :=
  if size < f.min then 0
  else
    let size1 := Min.min size f.max
    (⌈size1 / f.step⌉ : ℚ) * f.step

/-- Modelled from the spec: the round-up the spec describes as symmetric to
`round_down` — zero below `min`, clamp to `max` only when `max > 0`, ceil to
a multiple of `step` only when `step > 0`, unchanged when `max = 0` and
`step = 0`.  Used only to compare the spec's words with `Size.round_up`. -/
def Size.spec_round_up (f : Size) (size : ℚ) : ℚ :=
  if size < f.min then 0
  else
    let size1 := if 0 < f.max then Min.min size f.max else size
    if 0 < f.step then (⌈size1 / f.step⌉ : ℚ) * f.step else size1

/-- Exchange filters (`filters.rs`): price and size filters plus the decimal
precisions of the base and quote assets. -/
structure Filters where
  price : Price
  size : Size
  base_precision : ℕ
  quote_precision : ℕ
deriving DecidableEq

/-- Trading advice of a signal (`Advice` in `lib.rs`). -/
inductive Advice where
  | none
  | long
  | short
  | liquidate
deriving DecidableEq

/-- An OHLCV candle (`Candle` in `lib.rs`); `openp` embeds the source field
`open`, which is a reserved word in Lean. -/
structure Candle where
  time : ℕ
  openp : ℚ
  high : ℚ
  low : ℚ
  close : ℚ
  volume : ℚ
deriving DecidableEq

/-- Taker/maker fee rates (`Fees` in `lib.rs`). -/
structure Fees where
  maker : ℚ
  taker : ℚ
deriving DecidableEq

/-- Margin borrowing terms (`BorrowInfo` in `lib.rs`). -/
structure BorrowInfo where
  interest_interval : ℕ
  interest_rate : ℚ
  limit : ℚ
deriving DecidableEq

/-- One leg of a trade (`Fill` in `lib.rs`). -/
structure Fill where
  price : ℚ
  size : ℚ
  quote : ℚ
  fee : ℚ
deriving DecidableEq

/-- Reason a position was closed (`CloseReason` in `trading/mod.rs`). -/
inductive CloseReason where
  | strategy
  | stopLoss
  | takeProfit
  | cancelled
deriving DecidableEq

/-- An open long position (`OpenLongPosition`); the source stores a
one-element fill array, embedded as the single fill. -/
structure OpenLongPosition where
  time : ℕ
  fill : Fill
deriving DecidableEq

/-- Base gained by an open long (`OpenLongPosition::base_gain`, the total
size of the open fills minus their total fee — singleton arrays here). -/
def OpenLongPosition.base_gain (p : OpenLongPosition) : ℚ := p.fill.size - p.fill.fee

/-- An open short position (`OpenShortPosition`). -/
structure OpenShortPosition where
  time : ℕ
  collateral : ℚ
  borrowed : ℚ
  fill : Fill
deriving DecidableEq

/-- Either kind of open position (`OpenPosition`). -/
inductive OpenPosition where
  | long (p : OpenLongPosition)
  | short (p : OpenShortPosition)
deriving DecidableEq

/-- A closed long position (`LongPosition`). -/
structure LongPosition where
  open_time : ℕ
  open_fill : Fill
  close_time : ℕ
  close_fill : Fill
  close_reason : CloseReason
deriving DecidableEq

/-- Sealing an open long (`OpenLongPosition::close`). -/
def OpenLongPosition.close (p : OpenLongPosition) (time : ℕ) (fill : Fill)
    (reason : CloseReason) : LongPosition :=
  { open_time := p.time, open_fill := p.fill, close_time := time,
    close_fill := fill, close_reason := reason }

/-- A closed short position (`ShortPosition`). -/
structure ShortPosition where
  open_time : ℕ
  collateral : ℚ
  borrowed : ℚ
  open_fill : Fill
  close_time : ℕ
  close_fill : Fill
  close_reason : CloseReason
deriving DecidableEq

/-- Sealing an open short (`OpenShortPosition::close`). -/
def OpenShortPosition.close (p : OpenShortPosition) (time : ℕ) (fill : Fill)
    (reason : CloseReason) : ShortPosition :=
  { open_time := p.time, collateral := p.collateral, borrowed := p.borrowed,
    open_fill := p.fill, close_time := time, close_fill := fill,
    close_reason := reason }

/-- Either kind of closed position (`Position` in `trading/mod.rs`). -/
inductive Position where
  | long (p : LongPosition)
  | short (p : ShortPosition)
deriving DecidableEq

/-- Close reason of a closed position of either kind. -/
def Position.closeReason : Position → CloseReason
  | .long p => p.close_reason
  | .short p => p.close_reason

/-- Close time of a closed position of either kind. -/
def Position.closeTime : Position → ℕ
  | .long p => p.close_time
  | .short p => p.close_time

/-- Price recorded on the close fill of a closed position of either kind. -/
def Position.closePrice : Position → ℚ
  | .long p => p.close_fill.price
  | .short p => p.close_fill.price

/-- Result of a trading run (`TradingSummary`); `stop` embeds the source
field `end`, a reserved word in Lean. -/
structure TradingSummary where
  positions : List Position
  start : ℕ
  stop : ℕ
  quote : ℚ
deriving DecidableEq

/-- Mutable engine state (`State` in `trading/traders.rs`): the cash balance,
the open position and the last processed candle.  The `strategy`,
`stop_loss`, `take_profit` and `changed` boxes of the source are abstracted
into the per-tick signal oracle `TickSignals`. -/
structure EngineState where
  quote : ℚ
  open_position : Option OpenPosition
  last_candle : Option Candle
deriving DecidableEq

/-- Per-tick outputs of the trading sub-policies that `tick` reads: the
advice after the `Changed` debouncer and the stop-loss / take-profit hit
flags (all other effects of `update` and `clear` are internal to the
sub-policies and invisible to the engine). -/
structure TickSignals where
  advice : Advice
  stop_loss_upside_hit : Bool
  stop_loss_downside_hit : Bool
  take_profit_upside_hit : Bool
  take_profit_downside_hit : Bool
deriving DecidableEq

/-- Parameters threaded unchanged from `trade` into every `tick` (the
source passes them as separate arguments). -/
structure TickCfg where
  fees : Fees
  filters : Filters
  borrow_info : BorrowInfo
  margin_multiplier : ℕ
  interval : ℕ
  long : Bool
  short : Bool
deriving DecidableEq

/-- Input bundle of a trading run (`TradeInput` in `trading/traders.rs`). -/
structure TradeInput where
  candles : List Candle
  fees : Fees
  filters : Filters
  borrow_info : BorrowInfo
  margin_multiplier : ℕ
  quote : ℚ
  long : Bool
  short : Bool

/-- Attempting to open a long position (`try_open_long_position`): fails
(second component `false`, state unchanged) when the rounded size is zero;
otherwise records the open fill and deducts the rounded quote amount. -/
def try_open_long_position (fees : Fees) (filters : Filters) (time : ℕ)
    (price : ℚ) (st : EngineState) : EngineState × Bool :=
  let size := filters.size.round_down (st.quote / price)
  if size = 0 then (st, false)
  else
    let quote := round_down (price * size) filters.quote_precision
    let fee := round_half_up (size * fees.taker) filters.base_precision
    let fill : Fill := { price := price, size := size, quote := quote, fee := fee }
    let pos : OpenLongPosition := { time := time, fill := fill }
    ({ st with open_position := some (.long pos), quote := st.quote - quote },
      true)

/-- Closing a long position (`close_long_position`); `none` embeds the
`panic!()` taken when the open position is not a long. -/
def close_long_position (fees : Fees) (filters : Filters) (time : ℕ)
    (price : ℚ) (reason : CloseReason) (st : EngineState)
    (sm : TradingSummary) : Option (EngineState × TradingSummary) :=
  match st.open_position with
  | some (.long pos) =>
    let size := filters.size.round_down pos.base_gain
    let quote := round_down (price * size) filters.quote_precision
    let fee := round_half_up (quote * fees.taker) filters.quote_precision
    let closed := pos.close time
      { price := price, size := size, quote := quote, fee := fee } reason
    some ({ st with open_position := none, quote := st.quote + (quote - fee) },
      { sm with positions := sm.positions ++ [.long closed] })
  | _ => none

/-- Attempting to open a short position (`try_open_short_position`): fails
when the rounded collateral size is zero; otherwise borrows base against the
collateral and credits the rounded sale proceeds minus the fee. -/
def try_open_short_position (fees : Fees) (filters : Filters)
    (borrow_info : BorrowInfo) (margin_multiplier : ℕ) (time : ℕ) (price : ℚ)
    (st : EngineState) : EngineState × Bool :=
  let collateral_size := filters.size.round_down (st.quote / price)
  if collateral_size = 0 then (st, false)
  else
    let borrowed := Min.min (collateral_size * ((margin_multiplier - 1 : ℕ) : ℚ))
      borrow_info.limit
    let quote := round_down (price * borrowed) filters.quote_precision
    let fee := round_half_up (quote * fees.taker) filters.quote_precision
    let fill : Fill := { price := price, size := borrowed, quote := quote, fee := fee }
    let pos : OpenShortPosition :=
      { time := time, collateral := st.quote, borrowed := borrowed, fill := fill }
    ({ st with open_position := some (.short pos), quote := st.quote + (quote - fee) },
      true)

/-- Closing a short position (`close_short_position`): interest accrues per
started interest interval, the buyback size is borrowed plus interest plus
the fee, and the rounded buyback cost is deducted; `none` embeds the
`panic!()` taken when the open position is not a short. -/
def close_short_position (fees : Fees) (filters : Filters)
    (borrow_info : BorrowInfo) (time : ℕ) (price : ℚ) (reason : CloseReason)
    (st : EngineState) (sm : TradingSummary) :
    Option (EngineState × TradingSummary) :=
  match st.open_position with
  | some (.short pos) =>
    let borrowed := pos.borrowed
    let duration := ceil_multiple (time - pos.time) borrow_info.interest_interval /
      borrow_info.interest_interval
    let interest := round_half_up (borrowed * (duration : ℚ) * borrow_info.interest_rate)
      filters.base_precision
    let size := borrowed + interest
    let fee := round_half_up (size * fees.taker) filters.base_precision
    let size := size + fee
    let quote := round_down (price * size) filters.quote_precision
    let closed := pos.close time
      { price := price, size := size, quote := quote, fee := fee } reason
    some ({ st with open_position := none, quote := st.quote - quote },
      { sm with positions := sm.positions ++ [.short closed] })
  | _ => none

/-- First half of `tick` in `trading/traders.rs` (steps 3–4: close an open
position when the debounced advice or a stop-loss / take-profit hit says
so); `none` propagates a panicking close. -/
def tick_close_phase (cfg : TickCfg) (sig : TickSignals) (candle : Candle)
    (st : EngineState) (sm : TradingSummary) :
    Option (EngineState × TradingSummary) :=
  match st.open_position with
  | some (.long _) =>
    if sig.advice = .short ∨ sig.advice = .liquidate then
      close_long_position cfg.fees cfg.filters (candle.time + cfg.interval)
        candle.close .strategy st sm
    else if sig.stop_loss_upside_hit then
      close_long_position cfg.fees cfg.filters (candle.time + cfg.interval)
        candle.close .stopLoss st sm
    else if sig.take_profit_upside_hit then
      close_long_position cfg.fees cfg.filters (candle.time + cfg.interval)
        candle.close .takeProfit st sm
    else some (st, sm)
  | some (.short _) =>
    if sig.advice = .long ∨ sig.advice = .liquidate then
      close_short_position cfg.fees cfg.filters cfg.borrow_info
        (candle.time + cfg.interval) candle.close .strategy st sm
    else if sig.stop_loss_downside_hit then
      close_short_position cfg.fees cfg.filters cfg.borrow_info
        (candle.time + cfg.interval) candle.close .stopLoss st sm
    else if sig.take_profit_downside_hit then
      close_short_position cfg.fees cfg.filters cfg.borrow_info
        (candle.time + cfg.interval) candle.close .takeProfit st sm
    else some (st, sm)
  | none => some (st, sm)

/-- Second half of `tick` (step 5: when flat, try to open per the advice and
the enabled sides); the Boolean is `true` for `Ok(())` and `false` for the
`Err` of a failed open. -/
def tick_open_phase (cfg : TickCfg) (sig : TickSignals) (candle : Candle)
    (st1 : EngineState) : EngineState × Bool :=
  if st1.open_position.isNone then
    if cfg.long ∧ sig.advice = .long then
      try_open_long_position cfg.fees cfg.filters (candle.time + cfg.interval)
        candle.close st1
    else if cfg.short ∧ sig.advice = .short then
      try_open_short_position cfg.fees cfg.filters cfg.borrow_info
        cfg.margin_multiplier (candle.time + cfg.interval) candle.close st1
    else (st1, true)
  else (st1, true)

/-- One engine tick (`tick` in `trading/traders.rs`), the close phase
followed by the open phase.  Returns `none` on a (panicking) close of a
mismatched position; otherwise the updated state and summary together with
`true` for `Ok(())` and `false` for the `Err` raised by a failed open (in
which case, as in the source's early return, `last_candle` is not
updated). -/
def tick (cfg : TickCfg) (sig : TickSignals) (candle : Candle)
    (st : EngineState) (sm : TradingSummary) :
    Option (EngineState × TradingSummary × Bool) :=
  match tick_close_phase cfg sig candle st sm with
  | none => none
  | some (st1, sm1) =>
    let opened := tick_open_phase cfg sig candle st1
    if opened.2 then
      some ({ opened.1 with last_candle := some candle }, sm1, true)
    else
      some (opened.1, sm1, false)

/-- The candle loop of `trade`: runs `tick` on each candle in order, stopping
at the first tick that reports an error (the source's `break`); `i` indexes
the oracle, counting the ticks taken so far. -/
def trade_loop (cfg : TickCfg) (sigs : ℕ → TickSignals) :
    List Candle → ℕ → EngineState → TradingSummary →
    Option (EngineState × TradingSummary)
  | [], _, st, sm => some (st, sm)
  | c :: cs, i, st, sm =>
    match tick cfg (sigs i) c st sm with
    | none => none
    | some (st1, sm1, true) => trade_loop cfg sigs cs (i + 1) st1 sm1
    | some (st1, sm1, false) => some (st1, sm1)

/-- Trader interval parameters (`TraderParams`). -/
structure TraderParams where
  interval : ℕ

/-- Trading parameters (`TradingParams`); the strategy / stop-loss /
take-profit parameter blocks construct the sub-policies abstracted here by
the signal oracle. -/
structure TradingParams where
  trader : TraderParams

/-- A full trading run (`trade` in `trading/traders.rs`): build the summary
over the candle span, run the candle loop, then force-close any position
still open at the last processed candle with reason `Cancelled`.  `none`
embeds a `panic!()`, which claim C8 shows unreachable. -/
def trade (params : TradingParams) (sigs : ℕ → TickSignals)
    (input : TradeInput) : Option TradingSummary :=
  let interval := params.trader.interval
  let startStop : ℕ × ℕ :=
    match input.candles with
    | [] => (0, interval)
    | c :: cs => (c.time, (cs.getLastD c).time + interval)
  let cfg : TickCfg :=
    { fees := input.fees, filters := input.filters,
      borrow_info := input.borrow_info,
      margin_multiplier := input.margin_multiplier, interval := interval,
      long := input.long, short := input.short }
  let sm0 : TradingSummary :=
    { positions := [], start := startStop.1, stop := startStop.2,
      quote := input.quote }
  let st0 : EngineState :=
    { quote := input.quote, open_position := none, last_candle := none }
  match trade_loop cfg sigs input.candles 0 st0 sm0 with
  | none => none
  | some (st, sm) =>
    match st.last_candle with
    | some lc =>
      match st.open_position with
      | some (.long _) =>
        (close_long_position cfg.fees cfg.filters (lc.time + interval) lc.close
          .cancelled st sm).map (fun r => r.2)
      | some (.short _) =>
        (close_short_position cfg.fees cfg.filters cfg.borrow_info
          (lc.time + interval) lc.close .cancelled st sm).map (fun r => r.2)
      | none => some sm
    | none => some sm

/-- Modelled from the spec: the tick the spec describes, where a failed open
is a silent no-op and the loop continues ("If opening fails (size rounds to
0), the error is non-fatal: the position stays closed and the loop
continues"), so the candle is always remembered as `last_candle`.  Used only
to contrast the spec's words with `trade`. -/
def tick_continue (cfg : TickCfg) (sig : TickSignals) (candle : Candle)
    (st : EngineState) (sm : TradingSummary) :
    Option (EngineState × TradingSummary) :=
  (tick cfg sig candle st sm).map
    (fun r => ({ r.1 with last_candle := some candle }, r.2.1))

/-- Modelled from the spec: the candle loop with non-fatal open failures,
processing every candle. -/
def trade_loop_continue (cfg : TickCfg) (sigs : ℕ → TickSignals) :
    List Candle → ℕ → EngineState → TradingSummary →
    Option (EngineState × TradingSummary)
  | [], _, st, sm => some (st, sm)
  | c :: cs, i, st, sm =>
    match tick_continue cfg (sigs i) c st sm with
    | none => none
    | some (st1, sm1) => trade_loop_continue cfg sigs cs (i + 1) st1 sm1

/-- Modelled from the spec: `trade` as the spec describes it, using the
non-fatal candle loop `trade_loop_continue` in place of `trade_loop`. -/
def trade_spec_continue (params : TradingParams) (sigs : ℕ → TickSignals)
    (input : TradeInput) : Option TradingSummary :=
  let interval := params.trader.interval
  let startStop : ℕ × ℕ :=
    match input.candles with
    | [] => (0, interval)
    | c :: cs => (c.time, (cs.getLastD c).time + interval)
  let cfg : TickCfg :=
    { fees := input.fees, filters := input.filters,
      borrow_info := input.borrow_info,
      margin_multiplier := input.margin_multiplier, interval := interval,
      long := input.long, short := input.short }
  let sm0 : TradingSummary :=
    { positions := [], start := startStop.1, stop := startStop.2,
      quote := input.quote }
  let st0 : EngineState :=
    { quote := input.quote, open_position := none, last_candle := none }
  match trade_loop_continue cfg sigs input.candles 0 st0 sm0 with
  | none => none
  | some (st, sm) =>
    match st.last_candle with
    | some lc =>
      match st.open_position with
      | some (.long _) =>
        (close_long_position cfg.fees cfg.filters (lc.time + interval) lc.close
          .cancelled st sm).map (fun r => r.2)
      | some (.short _) =>
        (close_short_position cfg.fees cfg.filters cfg.borrow_info
          (lc.time + interval) lc.close .cancelled st sm).map (fun r => r.2)
      | none => some sm
    | none => some sm

/-- Milliseconds in a day (`DAY_MS`). -/
def DAY_MS : ℕ := 86400000

/-- Milliseconds in a week (`WEEK_MS`). -/
def WEEK_MS : ℕ := 604800000

/-- Milliseconds in the canonical month constant (`MONTH_MS`). -/
def MONTH_MS : ℕ := 2629746000

/-- Week-alignment offset anchoring Monday (`WEEK_OFFSET_MS` in
`primitives/timestamp.rs`). -/
def WEEK_OFFSET_MS : ℕ := 345600000

/-- Leap-year test of the proleptic Gregorian calendar, modelling the civil
calendar of the external `time` crate used by `Timestamp::floor` and
`Timestamp::ceil`; years here are ≥ 1970 since timestamps are unsigned. -/
def is_leap (y : ℕ) : Bool := (y % 4 = 0 && y % 100 != 0) || y % 400 = 0

/-- Days of each month of year `y` (civil calendar model). -/
def month_lengths (y : ℕ) : List ℕ :=
  [31, if is_leap y then 29 else 28, 31, 30, 31, 30, 31, 31, 30, 31, 30, 31]

/-- Days in year `y` (civil calendar model). -/
def days_in_year (y : ℕ) : ℕ := if is_leap y then 366 else 365

/-- Days from the Unix epoch to January 1 of the year `k` years after 1970
(civil calendar model). -/
def days_to_year : ℕ → ℕ
  | 0 => 0
  | k + 1 => days_to_year k + days_in_year (1970 + k)

/-- Yearly scan of the civil calendar model: starting `k` years after 1970
with `d` days remaining, peel whole years while the fuel lasts, returning
the year offset and the day within the year. -/
def ymd_go : ℕ → ℕ → ℕ → ℕ × ℕ
  | 0, k, d => (k, d)
  | fuel + 1, k, d =>
    if d < days_in_year (1970 + k) then (k, d)
    else ymd_go fuel (k + 1) (d - days_in_year (1970 + k))

/-- Monthly scan of the civil calendar model: peel month lengths off the day
within the year, returning the month (first month numbered `m0`) and the day
within the month, zero-based. -/
def month_from_year_day : List ℕ → ℕ → ℕ → ℕ × ℕ
  | [], m0, d => (m0, d)
  | l :: ls, m0, d => if d < l then (m0, d) else month_from_year_day ls (m0 + 1) (d - l)

/-- Civil date `(year, month, day)` of a day count since the Unix epoch
(model of `OffsetDateTime::to_calendar_date` composed with
`from_unix_timestamp_nanos` of the external `time` crate). -/
def civil_from_days (d : ℕ) : ℕ × ℕ × ℕ :=
  let yk := ymd_go d 0 d
  let md := month_from_year_day (month_lengths (1970 + yk.1)) 1 yk.2
  (1970 + yk.1, md.1, md.2 + 1)

/-- Days from the epoch to the start of month `m` within year `y` (civil
calendar model). -/
def days_to_month (y m : ℕ) : ℕ := ((month_lengths y).take (m - 1)).sum

/-- Day count since the Unix epoch of the first day of month `m` of year `y`
(model of `Date::from_calendar_date(y, m, 1)` converted back to a
timestamp). -/
def days_from_civil_first (y m : ℕ) : ℕ := days_to_year (y - 1970) + days_to_month y m

/-- Calendar-based month flooring of `Timestamp::floor`: the timestamp of
the first day of the month containing `t`. -/
def month_floor (t : ℕ) : ℕ :=
  let c := civil_from_days (t / DAY_MS)
  days_from_civil_first c.1 c.2.1 * DAY_MS

/-- Calendar-based month ceiling of `Timestamp::ceil`: the timestamp of the
first day of the month after the one containing `t` (the source increments
the month unconditionally, wrapping December into January of the next
year). -/
def month_ceil (t : ℕ) : ℕ :=
  let c := civil_from_days (t / DAY_MS)
  let ym : ℕ × ℕ := if c.2.1 = 12 then (c.1 + 1, 1) else (c.1, c.2.1 + 1)
  days_from_civil_first ym.1 ym.2 * DAY_MS

/-- Timestamp flooring to an interval (`Timestamp::floor` in
`primitives/timestamp.rs`): modular below one week, offset-anchored at one
week, calendar-based at the month constant.  Stated over `ℤ` so that the
week grid extends below its offset; the final branch is `unimplemented!()`
in the source and is never evaluated by the claims. -/
def Timestamp.floor (t : ℤ) (interval : ℕ) : ℤ :=
  if interval < WEEK_MS then t / interval * interval
  else if interval = WEEK_MS then floor_multiple_offset t interval WEEK_OFFSET_MS
  else if interval = MONTH_MS then month_floor t.toNat
  else t

/-- Timestamp ceiling to an interval (`Timestamp::ceil`): modular below one
week, offset-anchored at one week, calendar-based at the month constant; the
final branch is `unimplemented!()` in the source and is never evaluated by
the claims. -/
def Timestamp.ceil (t : ℤ) (interval : ℕ) : ℤ :=
  if interval < WEEK_MS then (t + interval - 1) / interval * interval
  else if interval = WEEK_MS then ceil_multiple_offset t interval WEEK_OFFSET_MS
  else if interval = MONTH_MS then month_ceil t.toNat
  else t

/-- Linear fitness aggregation step (`sum_linear` in
`trading/evaluation.rs`); `f64` embedded as `ℝ` since the step is about real
logarithms and powers. -/
noncomputable def sum_linear (acc val : ℝ) : ℝ := acc + val

/-- Log10 fitness aggregation step (`sum_log10` in `trading/evaluation.rs`,
with `LOG_SHIFT_FACTOR = 1`). -/
noncomputable def sum_log10 (acc val : ℝ) : ℝ :=
  acc + if 0 ≤ val then Real.logb 10 (val + 1) else -((10 : ℝ) ^ (-val + 1))

/-- Factored Log10 fitness aggregation step (`sum_log10_factored`, with
`FACTOR = 10`). -/
noncomputable def sum_log10_factored (acc val : ℝ) : ℝ := sum_log10 acc (val * 10)

/-- Whether an optional open position is a short (used to state the
long-only cash invariant). -/
def is_short_open : Option OpenPosition → Bool
  | some (.short _) => true
  | _ => false

/-- Side conditions of the long-only cash-balance invariant: short trading
disabled, a taker fee rate in `[0, 1]`, and a nonnegative size-filter
minimum. -/
def LongOnlyOk (cfg : TickCfg) : Prop :=
  cfg.short = false ∧ 0 ≤ cfg.fees.taker ∧ cfg.fees.taker ≤ 1 ∧
    0 ≤ cfg.filters.size.min

/-- Cash-balance invariant of the long-only engine: never a short position;
the balance is at least `-(1/2)·10^(-qp)` while flat and nonnegative while a
position is open. -/
def QuoteInv (qp : ℕ) (st : EngineState) : Prop :=
  is_short_open st.open_position = false ∧
  (st.open_position.isNone = true → -(1 / 2) / 10 ^ qp ≤ st.quote) ∧
  (st.open_position.isNone = false → 0 ≤ st.quote)

theorem floor_div_mul_le (a s : ℚ) (hs : 0 < s) : (⌊a / s⌋ : ℚ) * s ≤ a := by
  calc (⌊a / s⌋ : ℚ) * s ≤ a / s * s :=
        mul_le_mul_of_nonneg_right (Int.floor_le _) hs.le
    _ = a := div_mul_cancel₀ _ hs.ne'

theorem floor_div_mul_nonneg (a s : ℚ) (ha : 0 ≤ a) (hs : 0 < s) :
    0 ≤ (⌊a / s⌋ : ℚ) * s := by
  refine mul_nonneg ?_ hs.le
  exact_mod_cast Int.floor_nonneg.mpr (div_nonneg ha hs.le)

theorem round_down_le (x : ℚ) (p : ℕ) : round_down x p ≤ x := by
  unfold round_down
  rw [div_le_iff₀ (by positivity)]
  exact Int.floor_le _

theorem round_down_nonneg {x : ℚ} (p : ℕ) (h : 0 ≤ x) : 0 ≤ round_down x p := by
  unfold round_down
  refine div_nonneg ?_ (by positivity)
  exact_mod_cast Int.floor_nonneg.mpr (by positivity)

theorem round_half_up_le (x : ℚ) (p : ℕ) : round_half_up x p ≤ x + (1 / 2) / 10 ^ p := by
  unfold round_half_up
  have hp : (0 : ℚ) < 10 ^ p := by positivity
  rw [div_le_iff₀ hp, add_mul, div_mul_cancel₀ _ hp.ne']
  exact Int.floor_le _

theorem round_half_up_nonneg {x : ℚ} (p : ℕ) (h : 0 ≤ x) : 0 ≤ round_half_up x p := by
  unfold round_half_up
  refine div_nonneg ?_ (by positivity)
  exact_mod_cast Int.floor_nonneg.mpr (by positivity)

theorem Size.round_down_eq (f : Size) (x : ℚ) :
    f.round_down x = if x < f.min then 0
      else if 0 < f.step then
        (⌊(if 0 < f.max then Min.min x f.max else x) / f.step⌋ : ℚ) * f.step
      else (if 0 < f.max then Min.min x f.max else x) := rfl

theorem size_round_down_nonneg (f : Size) (x : ℚ) (hmin : 0 ≤ f.min) :
    0 ≤ f.round_down x := by
  rw [Size.round_down_eq]
  split_ifs with h1 h2 h3 h4
  · exact le_refl 0
  · exact floor_div_mul_nonneg _ _ (le_min (le_trans hmin (not_lt.mp h1)) h3.le) h2
  · exact floor_div_mul_nonneg _ _ (le_trans hmin (not_lt.mp h1)) h2
  · exact le_min (le_trans hmin (not_lt.mp h1)) h4.le
  · exact le_trans hmin (not_lt.mp h1)

theorem size_round_down_le (f : Size) (x : ℚ) (hx : 0 ≤ x) : f.round_down x ≤ x := by
  rw [Size.round_down_eq]
  split_ifs with h1 h2 h3 h4
  · exact hx
  · exact le_trans (floor_div_mul_le _ _ h2) (min_le_left _ _)
  · exact floor_div_mul_le _ _ h2
  · exact min_le_left _ _
  · exact le_refl x

theorem size_round_down_ne_zero (f : Size) (x : ℚ) (h : f.round_down x ≠ 0) :
    ¬ x < f.min := by
  intro hlt
  exact h (by rw [Size.round_down_eq, if_pos hlt])

/-! Claim C5. -/

/-- Claim C5 (amended): `round_down` behaves as claimed — zero below `min`,
clamped to `max` only when `max > 0`, floored to a multiple of `step` only
when `step > 0` — while `round_up` returns zero below `min` but then always
clamps to `max` and always ceils to a multiple of `step`, with no
zero-denotes-unconstrained guards. -/
theorem claim5_size_rounding (f : Size) (x : ℚ) :
    (x < f.min → f.round_down x = 0 ∧ f.round_up x = 0) ∧
    (¬ x < f.min →
      (¬ 0 < f.max → ¬ 0 < f.step → f.round_down x = x) ∧
      (0 < f.max → ¬ 0 < f.step → f.round_down x = Min.min x f.max) ∧
      (¬ 0 < f.max → 0 < f.step → f.round_down x = (⌊x / f.step⌋ : ℚ) * f.step) ∧
      (0 < f.max → 0 < f.step →
        f.round_down x = (⌊Min.min x f.max / f.step⌋ : ℚ) * f.step) ∧
      f.round_up x = (⌈Min.min x f.max / f.step⌉ : ℚ) * f.step) := by
  constructor
  · intro h
    constructor
    · rw [Size.round_down_eq, if_pos h]
    · unfold Size.round_up
      rw [if_pos h]
  · intro h
    refine ⟨?_, ?_, ?_, ?_, ?_⟩ <;> intros <;>
      simp [Size.round_down, Size.round_up, h, *]

/-- Claim C5 counterexample: for the size filter `{min 0, max 0, step 1}`
and input `5`, the source `round_up` clamps to the zero `max` and returns
`0`, while the claimed symmetric round-up (clamp only when `max > 0`) would
return `5`. -/
theorem claim5_size_rounding_counterexample :
    Size.round_up ⟨0, 0, 1⟩ 5 = 0 ∧ Size.spec_round_up ⟨0, 0, 1⟩ 5 = 5 ∧
      (0 : ℚ) ≠ 5 := by
  refine ⟨?_, ?_, by norm_num⟩ <;> norm_num [Size.round_up, Size.spec_round_up]

/-- Witness for claim C5: the amended theorem evaluated on the filter
`{min 10, max 20, step 1}` at inputs `5` (below the minimum) and `15`. -/
theorem claim5_size_rounding_witness :
    ((5 : ℚ) < (10 : ℚ) ∧ Size.round_down ⟨10, 20, 1⟩ 5 = 0 ∧
      Size.round_up ⟨10, 20, 1⟩ 5 = 0) ∧
    (Size.round_down ⟨10, 20, 1⟩ 15 = (⌊Min.min (15 : ℚ) 20 / 1⌋ : ℚ) * 1 ∧
      Size.round_up ⟨10, 20, 1⟩ 15 = (⌈Min.min (15 : ℚ) 20 / 1⌉ : ℚ) * 1) := by
  have h1 := (claim5_size_rounding ⟨10, 20, 1⟩ 5).1 (by decide)
  have h2 := (claim5_size_rounding ⟨10, 20, 1⟩ 15).2 (by decide)
  exact ⟨⟨by norm_num, h1.1, h1.2⟩,
    ⟨h2.2.2.2.1 (by decide) (by decide), h2.2.2.2.2⟩⟩

/-! Claim C7. -/

/-- Claim C7 (confirmed): the Log10 aggregation step adds
`log10(x + 1)` when `x ≥ 0` and `-(10 ^ (-x + 1))` when `x < 0`, and the
Log10Factored step is the Log10 step applied to `10 * x`. -/
theorem claim7_log10_aggregation (a x : ℝ) :
    (0 ≤ x → sum_log10 a x = a + Real.logb 10 (x + 1)) ∧
    (x < 0 → sum_log10 a x = a + -((10 : ℝ) ^ (-x + 1))) ∧
    sum_log10_factored a x = sum_log10 a (10 * x) := by
  refine ⟨fun h => ?_, fun h => ?_, ?_⟩
  · simp only [sum_log10, if_pos h]
  · simp only [sum_log10, if_neg (not_le.mpr h)]
  · simp only [sum_log10_factored, mul_comm]

/-- Witness for claim C7: the theorem evaluated at `a = 0` with `x = 1` and
`x = -1`. -/
theorem claim7_log10_aggregation_witness :
    ((0 : ℝ) ≤ 1 ∧ sum_log10 0 1 = 0 + Real.logb 10 (1 + 1)) ∧
    ((-1 : ℝ) < 0 ∧ sum_log10 0 (-1) = 0 + -((10 : ℝ) ^ (-(-1 : ℝ) + 1))) ∧
    sum_log10_factored 0 1 = sum_log10 0 (10 * 1) :=
  ⟨⟨by norm_num, (claim7_log10_aggregation 0 1).1 (by norm_num)⟩,
    ⟨by norm_num, (claim7_log10_aggregation 0 (-1)).2.1 (by norm_num)⟩,
    (claim7_log10_aggregation 0 1).2.2⟩

theorem ceil_multiple_div (e ii : ℕ) (h : 0 < ii) :
    ceil_multiple e ii / ii = (e + ii - 1) / ii := by
  unfold ceil_multiple
  exact Nat.mul_div_cancel _ h

/-! Claim C6. -/

/-- Claim C6 (confirmed): closing a short position computes the interest
over the ceiling count of started interest intervals, rounds it at base
precision, adds the base-precision taker fee into the buyback size, rounds
the buyback cost down at quote precision, and deducts exactly that quote
amount from the cash balance, recording the corresponding closed
position. -/
theorem claim6_close_short_arithmetic (fees : Fees) (filters : Filters)
    (borrow_info : BorrowInfo) (time : ℕ) (price : ℚ) (reason : CloseReason)
    (st : EngineState) (sm : TradingSummary) (pos : OpenShortPosition)
    (hpos : st.open_position = some (.short pos))
    (hii : 0 < borrow_info.interest_interval) (ht : pos.time ≤ time) :
    ∃ duration interest fee size quote,
      duration = (time - pos.time + borrow_info.interest_interval - 1) /
        borrow_info.interest_interval ∧
      interest = round_half_up
        (pos.borrowed * (duration : ℚ) * borrow_info.interest_rate)
        filters.base_precision ∧
      fee = round_half_up ((pos.borrowed + interest) * fees.taker)
        filters.base_precision ∧
      size = pos.borrowed + interest + fee ∧
      quote = round_down (price * size) filters.quote_precision ∧
      close_short_position fees filters borrow_info time price reason st sm =
        some ({ st with open_position := none, quote := st.quote - quote },
          { sm with positions := sm.positions ++
            [.short (pos.close time
              { price := price, size := size, quote := quote, fee := fee }
              reason)] }) := by
  refine ⟨_, _, _, _, _, rfl, rfl, rfl, rfl, rfl, ?_⟩
  unfold close_short_position
  rw [hpos]
  dsimp only
  rw [ceil_multiple_div _ _ hii]

/-- Witness for claim C6: the theorem evaluated on a concrete short of 100
borrowed base opened at time 1 against collateral 100, closed at time 2 and
price 10 with zero fees and interest and unit precisions. -/
theorem claim6_close_short_arithmetic_witness :
    ((⟨200, some (.short ⟨1, 100, 100, ⟨1, 100, 100, 0⟩⟩), none⟩ :
        EngineState).open_position =
      some (.short ⟨1, 100, 100, ⟨1, 100, 100, 0⟩⟩) ∧
      0 < (⟨1, 0, 5⟩ : BorrowInfo).interest_interval ∧
      (⟨1, 100, 100, ⟨1, 100, 100, 0⟩⟩ : OpenShortPosition).time ≤ 2) ∧
    (∃ duration interest fee size quote,
      duration = (2 - (⟨1, 100, 100, ⟨1, 100, 100, 0⟩⟩ :
          OpenShortPosition).time + (⟨1, 0, 5⟩ : BorrowInfo).interest_interval - 1) /
        (⟨1, 0, 5⟩ : BorrowInfo).interest_interval ∧
      interest = round_half_up
        ((⟨1, 100, 100, ⟨1, 100, 100, 0⟩⟩ : OpenShortPosition).borrowed *
          (duration : ℚ) * (⟨1, 0, 5⟩ : BorrowInfo).interest_rate)
        (⟨⟨0, 0, 0⟩, ⟨0, 0, 0⟩, 0, 0⟩ : Filters).base_precision ∧
      fee = round_half_up
        (((⟨1, 100, 100, ⟨1, 100, 100, 0⟩⟩ : OpenShortPosition).borrowed + interest) *
          (⟨0, 0⟩ : Fees).taker)
        (⟨⟨0, 0, 0⟩, ⟨0, 0, 0⟩, 0, 0⟩ : Filters).base_precision ∧
      size = (⟨1, 100, 100, ⟨1, 100, 100, 0⟩⟩ : OpenShortPosition).borrowed +
        interest + fee ∧
      quote = round_down (10 * size)
        (⟨⟨0, 0, 0⟩, ⟨0, 0, 0⟩, 0, 0⟩ : Filters).quote_precision ∧
      close_short_position ⟨0, 0⟩ ⟨⟨0, 0, 0⟩, ⟨0, 0, 0⟩, 0, 0⟩ ⟨1, 0, 5⟩ 2 10
        .strategy ⟨200, some (.short ⟨1, 100, 100, ⟨1, 100, 100, 0⟩⟩), none⟩
        ⟨[], 0, 2, 100⟩ =
        some ({ (⟨200, some (.short ⟨1, 100, 100, ⟨1, 100, 100, 0⟩⟩), none⟩ :
              EngineState) with open_position := none, quote := 200 - quote },
          { (⟨[], 0, 2, 100⟩ : TradingSummary) with positions := [] ++
            [.short ((⟨1, 100, 100, ⟨1, 100, 100, 0⟩⟩ : OpenShortPosition).close 2
              { price := 10, size := size, quote := quote, fee := fee }
              .strategy)] })) :=
  ⟨⟨rfl, by decide, by decide⟩,
    claim6_close_short_arithmetic ⟨0, 0⟩ ⟨⟨0, 0, 0⟩, ⟨0, 0, 0⟩, 0, 0⟩ ⟨1, 0, 5⟩ 2 10
      .strategy ⟨200, some (.short ⟨1, 100, 100, ⟨1, 100, 100, 0⟩⟩), none⟩
      ⟨[], 0, 2, 100⟩ ⟨1, 100, 100, ⟨1, 100, 100, 0⟩⟩ rfl (by decide) (by decide)⟩

/-! Claim C8. -/

theorem tick_close_phase_isSome (cfg : TickCfg) (sig : TickSignals)
    (candle : Candle) (st : EngineState) (sm : TradingSummary) :
    (tick_close_phase cfg sig candle st sm).isSome := by
  rcases hop : st.open_position with _ | p
  · simp [tick_close_phase, hop]
  · cases p with
    | long lp =>
      simp only [tick_close_phase, hop, close_long_position]
      split_ifs <;> simp
    | short sp =>
      simp only [tick_close_phase, hop, close_short_position]
      split_ifs <;> simp

theorem tick_isSome (cfg : TickCfg) (sig : TickSignals) (candle : Candle)
    (st : EngineState) (sm : TradingSummary) :
    (tick cfg sig candle st sm).isSome := by
  unfold tick
  rcases hcl : tick_close_phase cfg sig candle st sm with _ | ⟨st1, sm1⟩
  · exact absurd hcl
      (Option.isSome_iff_ne_none.mp (tick_close_phase_isSome cfg sig candle st sm))
  · dsimp only
    split <;> simp

theorem trade_loop_isSome (cfg : TickCfg) (sigs : ℕ → TickSignals) :
    ∀ (cs : List Candle) (i : ℕ) (st : EngineState) (sm : TradingSummary),
      (trade_loop cfg sigs cs i st sm).isSome := by
  intro cs
  induction cs with
  | nil => intro i st sm; simp [trade_loop]
  | cons c cs ih =>
    intro i st sm
    obtain ⟨r, hr⟩ := Option.isSome_iff_exists.mp (tick_isSome cfg (sigs i) c st sm)
    obtain ⟨st1, sm1, b⟩ := r
    simp only [trade_loop, hr]
    cases b with
    | true => exact ih (i + 1) st1 sm1
    | false => simp

/-- Claim C8 (confirmed): in every run of `trade` the close helpers are only
reached with a matching open position, so the `panic!()` branches of
`close_long_position` and `close_short_position` (embedded as `none`) are
unreachable: `trade` always returns a summary. -/
theorem claim8_close_panic_unreachable (params : TradingParams)
    (sigs : ℕ → TickSignals) (input : TradeInput) :
    (trade params sigs input).isSome := by
  unfold trade
  dsimp only
  split
  · rename_i heq
    exact absurd heq
      (Option.isSome_iff_ne_none.mp (trade_loop_isSome _ _ _ _ _ _))
  · rename_i st sm heq
    rcases hlc : st.last_candle with _ | lc
    · simp [hlc]
    · rcases hop : st.open_position with _ | p
      · simp [hlc, hop]
      · cases p with
        | long lp => simp [hlc, hop, close_long_position]
        | short sp => simp [hlc, hop, close_short_position]

/-! Claims C1 and C2: structure of the candle loop. -/

theorem tick_open_phase_false (cfg : TickCfg) (sig : TickSignals) (c : Candle)
    (st1 st2 : EngineState)
    (h : tick_open_phase cfg sig c st1 = (st2, false)) :
    st2 = st1 ∧ st1.open_position = none := by
  unfold tick_open_phase at h
  split_ifs at h with h1 h2 h3
  · unfold try_open_long_position at h
    dsimp only at h
    split_ifs at h with h4
    · simp only [Prod.mk.injEq] at h
      exact ⟨h.1.symm, Option.isNone_iff_eq_none.mp h1⟩
    · simp at h
  · unfold try_open_short_position at h
    dsimp only at h
    split_ifs at h with h4
    · simp only [Prod.mk.injEq] at h
      exact ⟨h.1.symm, Option.isNone_iff_eq_none.mp h1⟩
    · simp at h
  · simp at h
  · simp at h

theorem tick_false_flat (cfg : TickCfg) (sig : TickSignals) (c : Candle)
    (st st1 : EngineState) (sm sm1 : TradingSummary)
    (h : tick cfg sig c st sm = some (st1, sm1, false)) :
    st1.open_position = none := by
  unfold tick at h
  rcases hcl : tick_close_phase cfg sig c st sm with _ | ⟨stm, smm⟩
  · rw [hcl] at h
    simp at h
  · rw [hcl] at h
    dsimp only at h
    rcases hopn : tick_open_phase cfg sig c stm with ⟨st2, b⟩
    rw [hopn] at h
    cases b with
    | true => simp at h
    | false =>
      simp only [Bool.false_eq_true, if_false, Option.some.injEq,
        Prod.mk.injEq] at h
      obtain ⟨h1, -, -⟩ := h
      obtain ⟨he, hn⟩ := tick_open_phase_false cfg sig c stm st2 hopn
      rw [← h1, he, hn]

theorem tick_true_last (cfg : TickCfg) (sig : TickSignals) (c : Candle)
    (st st1 : EngineState) (sm sm1 : TradingSummary)
    (h : tick cfg sig c st sm = some (st1, sm1, true)) :
    st1.last_candle = some c := by
  unfold tick at h
  rcases hcl : tick_close_phase cfg sig c st sm with _ | ⟨stm, smm⟩
  · rw [hcl] at h
    simp at h
  · rw [hcl] at h
    dsimp only at h
    rcases hopn : tick_open_phase cfg sig c stm with ⟨st2, b⟩
    rw [hopn] at h
    cases b with
    | true =>
      simp only [if_true, Option.some.injEq, Prod.mk.injEq] at h
      obtain ⟨h1, -, -⟩ := h
      rw [← h1]
    | false => simp at h

theorem trade_loop_open_last (cfg : TickCfg) (sigs : ℕ → TickSignals) :
    ∀ (cs : List Candle) (i : ℕ) (st st1 : EngineState)
      (sm sm1 : TradingSummary),
      trade_loop cfg sigs cs i st sm = some (st1, sm1) →
      st1.open_position.isSome = true →
      (cs = [] ∧ st1 = st ∧ sm1 = sm) ∨
      (∃ c cs2, cs = c :: cs2 ∧ st1.last_candle = some (cs2.getLastD c)) := by
  intro cs
  induction cs with
  | nil =>
    intro i st st1 sm sm1 h hsome
    simp only [trade_loop, Option.some.injEq, Prod.mk.injEq] at h
    exact Or.inl ⟨rfl, h.1.symm, h.2.symm⟩
  | cons c cs2 ih =>
    intro i st st1 sm sm1 h hsome
    rcases htk : tick cfg (sigs i) c st sm with _ | ⟨st2, sm2, b⟩
    · simp only [trade_loop, htk] at h
      exact Option.noConfusion h
    · cases b with
      | false =>
        simp only [trade_loop, htk, Option.some.injEq, Prod.mk.injEq] at h
        obtain ⟨h1, h2⟩ := h
        subst h1
        rw [tick_false_flat cfg (sigs i) c st st2 sm sm2 htk] at hsome
        simp at hsome
      | true =>
        simp only [trade_loop, htk] at h
        rcases ih (i + 1) st2 st1 sm2 sm1 h hsome with ⟨hnil, hst, hsm⟩ | ⟨c3, cs3, hcs, hlc⟩
        · subst hnil hst
          refine Or.inr ⟨c, [], rfl, ?_⟩
          simpa using tick_true_last cfg (sigs i) c st st1 sm sm2 htk
        · subst hcs
          refine Or.inr ⟨c, c3 :: cs3, rfl, ?_⟩
          rw [List.getLastD_cons]
          exact hlc

/-- Claim C1 (amended): a size-zero open attempt itself is harmless — the
failed `try_open_long_position` / `try_open_short_position` leave the state
unchanged and open nothing — but the resulting `Err` is not non-fatal: a
tick that reports it ends the candle loop of `trade`, so the remaining
candles of the stream are not processed (the engine is flat when this
happens, since a failed open leaves no position). -/
theorem claim1_size_zero_open :
    (∀ (fees : Fees) (filters : Filters) (time : ℕ) (price : ℚ)
      (st : EngineState),
      filters.size.round_down (st.quote / price) = 0 →
      try_open_long_position fees filters time price st = (st, false)) ∧
    (∀ (fees : Fees) (filters : Filters) (borrow_info : BorrowInfo)
      (mm time : ℕ) (price : ℚ) (st : EngineState),
      filters.size.round_down (st.quote / price) = 0 →
      try_open_short_position fees filters borrow_info mm time price st =
        (st, false)) ∧
    (∀ (cfg : TickCfg) (sigs : ℕ → TickSignals) (i : ℕ) (c : Candle)
      (cs : List Candle) (st st1 : EngineState) (sm sm1 : TradingSummary),
      tick cfg (sigs i) c st sm = some (st1, sm1, false) →
      st1.open_position = none ∧
      trade_loop cfg sigs (c :: cs) i st sm = some (st1, sm1)) := by
  refine ⟨?_, ?_, ?_⟩
  · intro fees filters time price st h
    simp [try_open_long_position, h]
  · intro fees filters borrow_info mm time price st h
    simp [try_open_short_position, h]
  · intro cfg sigs i c cs st st1 sm sm1 h
    exact ⟨tick_false_flat cfg (sigs i) c st st1 sm sm1 h,
      by simp only [trade_loop, h]⟩

/-- Claim C1 counterexample: quote 10 with size minimum 1; the first candle
closes at 100 (size rounds to 0) and the second at 1 (an open would
succeed).  The source engine aborts the loop at the first candle and ends
with no positions, while the engine the claim describes (modelled by
`trade_spec_continue`) continues, opens on the second candle and records one
cancelled position — so the loop does not continue and a later candle
cannot open a position. -/
theorem claim1_size_zero_open_counterexample :
    (trade ⟨⟨1⟩⟩ (fun _ => ⟨.long, false, false, false, false⟩)
      ⟨[⟨0, 100, 100, 100, 100, 0⟩, ⟨1, 1, 1, 1, 1, 0⟩], ⟨0, 0⟩,
        ⟨⟨0, 0, 0⟩, ⟨1, 0, 0⟩, 0, 0⟩, ⟨1, 0, 1000000000⟩, 2, 10, true,
        false⟩).map (fun r => r.positions.length) = some 0 ∧
    (trade_spec_continue ⟨⟨1⟩⟩ (fun _ => ⟨.long, false, false, false, false⟩)
      ⟨[⟨0, 100, 100, 100, 100, 0⟩, ⟨1, 1, 1, 1, 1, 0⟩], ⟨0, 0⟩,
        ⟨⟨0, 0, 0⟩, ⟨1, 0, 0⟩, 0, 0⟩, ⟨1, 0, 1000000000⟩, 2, 10, true,
        false⟩).map (fun r => r.positions.length) = some 1 := by
  constructor
  · norm_num [trade, trade_loop, tick, tick_close_phase,
      tick_open_phase, try_open_long_position,
      try_open_short_position, close_long_position, close_short_position,
      Size.round_down, round_down, round_half_up, OpenLongPosition.base_gain]
  · norm_num [trade_spec_continue, trade_loop_continue, tick_continue, tick,
      tick_close_phase, tick_open_phase, try_open_long_position, try_open_short_position, close_long_position,
      close_short_position, Size.round_down, round_down, round_half_up,
      OpenLongPosition.base_gain]

/-- Witness for claim C1: the amended theorem applied to a concrete failing
long open (quote 1/2, price 1, size minimum 1) and to the concrete failing
tick it produces. -/
theorem claim1_size_zero_open_witness :
    (Size.round_down ⟨1, 0, 0⟩ ((1 / 2 : ℚ) / 1) = 0 ∧
      try_open_long_position ⟨0, 0⟩ ⟨⟨0, 0, 0⟩, ⟨1, 0, 0⟩, 0, 0⟩ 1 1
        ⟨1 / 2, none, none⟩ = (⟨1 / 2, none, none⟩, false)) ∧
    (try_open_short_position ⟨0, 0⟩ ⟨⟨0, 0, 0⟩, ⟨1, 0, 0⟩, 0, 0⟩
        ⟨1, 0, 1000000000⟩ 2 1 1 ⟨1 / 2, none, none⟩ =
      (⟨1 / 2, none, none⟩, false)) ∧
    ((⟨1 / 2, none, none⟩ : EngineState).open_position = none ∧
      trade_loop ⟨⟨0, 0⟩, ⟨⟨0, 0, 0⟩, ⟨1, 0, 0⟩, 0, 0⟩, ⟨1, 0, 1000000000⟩, 2,
          1, true, false⟩
        (fun _ => ⟨.long, false, false, false, false⟩)
        [⟨0, 1, 1, 1, 1, 0⟩, ⟨1, 1, 1, 1, 1, 0⟩] 0 ⟨1 / 2, none, none⟩
        ⟨[], 0, 2, 1 / 2⟩ = some (⟨1 / 2, none, none⟩, ⟨[], 0, 2, 1 / 2⟩)) := by
  have hrd : Size.round_down ⟨1, 0, 0⟩ ((1 / 2 : ℚ) / 1) = 0 := by
    norm_num [Size.round_down]
  have htick : tick
      ⟨⟨0, 0⟩, ⟨⟨0, 0, 0⟩, ⟨1, 0, 0⟩, 0, 0⟩, ⟨1, 0, 1000000000⟩, 2, 1, true,
        false⟩
      ((fun _ : ℕ => (⟨.long, false, false, false, false⟩ : TickSignals)) 0)
      ⟨0, 1, 1, 1, 1, 0⟩ ⟨1 / 2, none, none⟩ ⟨[], 0, 2, 1 / 2⟩ =
      some (⟨1 / 2, none, none⟩, ⟨[], 0, 2, 1 / 2⟩, false) := by
    norm_num [tick, tick_close_phase, tick_open_phase,
      try_open_long_position, Size.round_down, round_down, round_half_up]
  refine ⟨⟨hrd, ?_⟩, ?_, ?_⟩
  · exact claim1_size_zero_open.1 ⟨0, 0⟩ ⟨⟨0, 0, 0⟩, ⟨1, 0, 0⟩, 0, 0⟩ 1 1
      ⟨1 / 2, none, none⟩ hrd
  · exact claim1_size_zero_open.2.1 ⟨0, 0⟩ ⟨⟨0, 0, 0⟩, ⟨1, 0, 0⟩, 0, 0⟩
      ⟨1, 0, 1000000000⟩ 2 1 1 ⟨1 / 2, none, none⟩ hrd
  · exact claim1_size_zero_open.2.2
      ⟨⟨0, 0⟩, ⟨⟨0, 0, 0⟩, ⟨1, 0, 0⟩, 0, 0⟩, ⟨1, 0, 1000000000⟩, 2, 1, true,
        false⟩
      (fun _ => ⟨.long, false, false, false, false⟩) 0 ⟨0, 1, 1, 1, 1, 0⟩
      [⟨1, 1, 1, 1, 1, 0⟩] ⟨1 / 2, none, none⟩ ⟨1 / 2, none, none⟩
      ⟨[], 0, 2, 1 / 2⟩ ⟨[], 0, 2, 1 / 2⟩ htick

/-- Claim C2 (confirmed): with at least one candle, if a position is still
open after the candle loop then `trade` appends exactly one extra closed
position, with reason `Cancelled`, close time `last_candle.time + interval`
and close price `last_candle.close` (where the last candle is the last of
the stream); if no position is open after the loop, the summary is returned
unchanged. -/
theorem claim2_cancel_close (params : TradingParams) (sigs : ℕ → TickSignals)
    (input : TradeInput) (c0 : Candle) (cs0 : List Candle)
    (hcs : input.candles = c0 :: cs0)
    (st1 : EngineState) (sm1 : TradingSummary)
    (hloop : trade_loop
      { fees := input.fees, filters := input.filters,
        borrow_info := input.borrow_info,
        margin_multiplier := input.margin_multiplier,
        interval := params.trader.interval, long := input.long,
        short := input.short }
      sigs (c0 :: cs0) 0
      { quote := input.quote, open_position := none, last_candle := none }
      { positions := [], start := c0.time,
        stop := (cs0.getLastD c0).time + params.trader.interval,
        quote := input.quote } = some (st1, sm1)) :
    (st1.open_position.isNone = true → trade params sigs input = some sm1) ∧
    (∀ p, st1.open_position = some p →
      ∃ q, trade params sigs input =
          some { sm1 with positions := sm1.positions ++ [q] } ∧
        q.closeReason = .cancelled ∧
        q.closeTime = (cs0.getLastD c0).time + params.trader.interval ∧
        q.closePrice = (cs0.getLastD c0).close) := by
  have hlast : ∀ p, st1.open_position = some p →
      st1.last_candle = some (cs0.getLastD c0) := by
    intro p hp
    rcases trade_loop_open_last _ sigs (c0 :: cs0) 0 _ st1 _ sm1 hloop
        (by rw [hp]; rfl) with ⟨hnil, -, -⟩ | ⟨c, cs2, hcons, hlc⟩
    · exact absurd hnil (by simp)
    · injection hcons with h1 h2
      subst h1
      subst h2
      exact hlc
  unfold trade
  simp only [hcs]
  rw [hloop]
  constructor
  · intro hn
    have hn' : st1.open_position = none := Option.isNone_iff_eq_none.mp hn
    rcases hl : st1.last_candle with _ | lc
    · simp [hl]
    · simp [hl, hn']
  · intro p hp
    have hlc := hlast p hp
    simp only [hlc]
    cases p with
    | long lp =>
      simp only [hp, close_long_position, Option.map_some']
      exact ⟨.long (lp.close ((cs0.getLastD c0).time + params.trader.interval)
        { price := (cs0.getLastD c0).close,
          size := input.filters.size.round_down lp.base_gain,
          quote := round_down ((cs0.getLastD c0).close *
            input.filters.size.round_down lp.base_gain)
            input.filters.quote_precision,
          fee := round_half_up (round_down ((cs0.getLastD c0).close *
            input.filters.size.round_down lp.base_gain)
            input.filters.quote_precision * input.fees.taker)
            input.filters.quote_precision } .cancelled), rfl, rfl, rfl, rfl⟩
    | short sp =>
      simp only [hp, close_short_position, Option.map_some']
      refine ⟨.short (sp.close ((cs0.getLastD c0).time + params.trader.interval)
        _ .cancelled), rfl, rfl, rfl, rfl⟩

/-- Witness for claim C2: a one-candle run (quote 100, price 1, trivial
filters) whose loop ends with an open long, to which the theorem appends the
cancelled close. -/
theorem claim2_cancel_close_witness :
    trade_loop
      ⟨⟨0, 0⟩, ⟨⟨0, 0, 0⟩, ⟨0, 0, 0⟩, 0, 0⟩, ⟨1, 0, 1000000000⟩, 2, 1, true,
        false⟩
      (fun _ => ⟨.long, false, false, false, false⟩) [⟨0, 1, 1, 1, 1, 0⟩] 0
      ⟨100, none, none⟩ ⟨[], 0, 1, 100⟩ =
      some (⟨0, some (.long ⟨1, ⟨1, 100, 100, 0⟩⟩), some ⟨0, 1, 1, 1, 1, 0⟩⟩,
        ⟨[], 0, 1, 100⟩) ∧
    ∃ q, trade ⟨⟨1⟩⟩ (fun _ => ⟨.long, false, false, false, false⟩)
        ⟨[⟨0, 1, 1, 1, 1, 0⟩], ⟨0, 0⟩, ⟨⟨0, 0, 0⟩, ⟨0, 0, 0⟩, 0, 0⟩,
          ⟨1, 0, 1000000000⟩, 2, 100, true, false⟩ =
        some { (⟨[], 0, 1, 100⟩ : TradingSummary) with
          positions := (⟨[], 0, 1, 100⟩ : TradingSummary).positions ++ [q] } ∧
      q.closeReason = .cancelled ∧
      q.closeTime = (([] : List Candle).getLastD ⟨0, 1, 1, 1, 1, 0⟩).time +
        (⟨⟨1⟩⟩ : TradingParams).trader.interval ∧
      q.closePrice = (([] : List Candle).getLastD ⟨0, 1, 1, 1, 1, 0⟩).close := by
  have hloop : trade_loop
      ⟨⟨0, 0⟩, ⟨⟨0, 0, 0⟩, ⟨0, 0, 0⟩, 0, 0⟩, ⟨1, 0, 1000000000⟩, 2, 1, true,
        false⟩
      (fun _ => ⟨.long, false, false, false, false⟩) [⟨0, 1, 1, 1, 1, 0⟩] 0
      ⟨100, none, none⟩ ⟨[], 0, 1, 100⟩ =
      some (⟨0, some (.long ⟨1, ⟨1, 100, 100, 0⟩⟩), some ⟨0, 1, 1, 1, 1, 0⟩⟩,
        ⟨[], 0, 1, 100⟩) := by
    norm_num [trade_loop, tick, tick_close_phase, tick_open_phase,
      try_open_long_position, Size.round_down, round_down, round_half_up]
  exact ⟨hloop,
    (claim2_cancel_close ⟨⟨1⟩⟩ (fun _ => ⟨.long, false, false, false, false⟩)
      ⟨[⟨0, 1, 1, 1, 1, 0⟩], ⟨0, 0⟩, ⟨⟨0, 0, 0⟩, ⟨0, 0, 0⟩, 0, 0⟩,
        ⟨1, 0, 1000000000⟩, 2, 100, true, false⟩
      ⟨0, 1, 1, 1, 1, 0⟩ [] rfl _ _ hloop).2
      (.long ⟨1, ⟨1, 100, 100, 0⟩⟩) rfl⟩

/-! Claim C9. -/

/-- Claim C9 (amended): on a tick with an open long, debounced advice
`Short` and short trading enabled, the engine closes the long with reason
`Strategy` and — provided the collateral size after the close does not round
to zero — opens a short in the same tick, the close and the new open both
recording time `candle.time + interval` and price `candle.close`; and
symmetrically for an open short with advice `Long` and long trading
enabled. -/
theorem claim9_flip_same_tick :
    (∀ (cfg : TickCfg) (sig : TickSignals) (c : Candle) (st : EngineState)
        (sm sm1 : TradingSummary) (lp : OpenLongPosition) (st1 : EngineState),
      st.open_position = some (.long lp) →
      sig.advice = .short →
      cfg.short = true →
      close_long_position cfg.fees cfg.filters (c.time + cfg.interval) c.close
        .strategy st sm = some (st1, sm1) →
      cfg.filters.size.round_down (st1.quote / c.close) ≠ 0 →
      ∃ st2 sp,
        tick cfg sig c st sm = some (st2, sm1, true) ∧
        st2.open_position = some (.short sp) ∧
        sp.time = c.time + cfg.interval ∧
        sp.fill.price = c.close ∧
        ∃ q, sm1.positions = sm.positions ++ [q] ∧
          q.closeReason = .strategy ∧ q.closeTime = c.time + cfg.interval ∧
          q.closePrice = c.close) ∧
    (∀ (cfg : TickCfg) (sig : TickSignals) (c : Candle) (st : EngineState)
        (sm sm1 : TradingSummary) (sp : OpenShortPosition) (st1 : EngineState),
      st.open_position = some (.short sp) →
      sig.advice = .long →
      cfg.long = true →
      close_short_position cfg.fees cfg.filters cfg.borrow_info
        (c.time + cfg.interval) c.close .strategy st sm = some (st1, sm1) →
      cfg.filters.size.round_down (st1.quote / c.close) ≠ 0 →
      ∃ st2 lp,
        tick cfg sig c st sm = some (st2, sm1, true) ∧
        st2.open_position = some (.long lp) ∧
        lp.time = c.time + cfg.interval ∧
        lp.fill.price = c.close ∧
        ∃ q, sm1.positions = sm.positions ++ [q] ∧
          q.closeReason = .strategy ∧ q.closeTime = c.time + cfg.interval ∧
          q.closePrice = c.close) := by
  constructor
  · intro cfg sig c st sm sm1 lp st1 hpos hadv hshort hclose hsz
    have hclose' := hclose
    unfold close_long_position at hclose'
    rw [hpos] at hclose'
    dsimp only at hclose'
    simp only [Option.some.injEq, Prod.mk.injEq] at hclose'
    obtain ⟨hst1, hsm1⟩ := hclose'
    have hnone : st1.open_position.isNone = true := by
      rw [← hst1]
      rfl
    have hsz' : ¬ cfg.filters.size.round_down (st1.quote / c.close) = 0 := hsz
    unfold tick tick_close_phase
    rw [hpos, if_pos (Or.inl hadv), hclose]
    dsimp only
    unfold tick_open_phase
    have hnl : ¬ (cfg.long = true ∧ sig.advice = Advice.long) := by
      rw [hadv]
      rintro ⟨-, h⟩
      exact Advice.noConfusion h
    have hps : cfg.short = true ∧ sig.advice = Advice.short := ⟨hshort, hadv⟩
    rw [if_pos hnone, if_neg hnl, if_pos hps]
    unfold try_open_short_position
    dsimp only
    rw [if_neg hsz']
    refine ⟨_, _, rfl, rfl, rfl, rfl, ?_⟩
    rw [← hsm1]
    exact ⟨_, rfl, rfl, rfl, rfl⟩
  · intro cfg sig c st sm sm1 sp st1 hpos hadv hlong hclose hsz
    have hclose' := hclose
    unfold close_short_position at hclose'
    rw [hpos] at hclose'
    dsimp only at hclose'
    simp only [Option.some.injEq, Prod.mk.injEq] at hclose'
    obtain ⟨hst1, hsm1⟩ := hclose'
    have hnone : st1.open_position.isNone = true := by
      rw [← hst1]
      rfl
    have hsz' : ¬ cfg.filters.size.round_down (st1.quote / c.close) = 0 := hsz
    unfold tick tick_close_phase
    rw [hpos, if_pos (Or.inl hadv), hclose]
    dsimp only
    unfold tick_open_phase
    have hpl : cfg.long = true ∧ sig.advice = Advice.long := ⟨hlong, hadv⟩
    rw [if_pos hnone, if_pos hpl]
    unfold try_open_long_position
    dsimp only
    rw [if_neg hsz']
    refine ⟨_, _, rfl, rfl, rfl, rfl, ?_⟩
    rw [← hsm1]
    exact ⟨_, rfl, rfl, rfl, rfl⟩

/-- Claim C9 counterexample: a long open on full margin (quote 0) with
advice `Short`, short trading enabled and size minimum 1000: the long is
closed (size rounds to 0, proceeds 0), but the short open then fails with
collateral size 0, so no short position exists after the tick and the tick
reports the error — the claim's same-tick short open does not happen. -/
theorem claim9_flip_same_tick_counterexample :
    tick ⟨⟨0, 0⟩, ⟨⟨0, 0, 0⟩, ⟨1000, 0, 0⟩, 0, 0⟩, ⟨1, 0, 1000000000⟩, 2, 1,
        true, true⟩
      ⟨.short, false, false, false, false⟩ ⟨1, 1, 1, 1, 1, 0⟩
      ⟨0, some (.long ⟨0, ⟨1, 100, 100, 0⟩⟩), none⟩ ⟨[], 0, 2, 100⟩ =
      some (⟨0, none, none⟩,
        ⟨[.long ⟨0, ⟨1, 100, 100, 0⟩, 2, ⟨1, 0, 0, 0⟩, .strategy⟩], 0, 2, 100⟩,
        false) := by
  norm_num [tick, tick_close_phase, tick_open_phase, close_long_position,
    try_open_long_position, try_open_short_position, OpenLongPosition.base_gain,
    OpenLongPosition.close, Size.round_down, round_down, round_half_up]

/-- Witness for claim C9: both directions applied to concrete flips at price
1 with trivial filters — a long of 100 base closed and replaced by a short
of 100 borrowed, and a short of 100 borrowed closed and replaced by a long
of 100 base. -/
theorem claim9_flip_same_tick_witness :
    (∃ st2 sp,
      tick ⟨⟨0, 0⟩, ⟨⟨0, 0, 0⟩, ⟨0, 0, 0⟩, 0, 0⟩, ⟨1, 0, 1000000000⟩, 2, 1,
          true, true⟩
        ⟨.short, false, false, false, false⟩ ⟨1, 1, 1, 1, 1, 0⟩
        ⟨0, some (.long ⟨0, ⟨1, 100, 100, 0⟩⟩), none⟩ ⟨[], 0, 2, 100⟩ =
        some (st2,
          ⟨[.long ⟨0, ⟨1, 100, 100, 0⟩, 2, ⟨1, 100, 100, 0⟩, .strategy⟩], 0, 2,
            100⟩, true) ∧
      st2.open_position = some (.short sp) ∧
      sp.time = (⟨1, 1, 1, 1, 1, 0⟩ : Candle).time + 1 ∧
      sp.fill.price = (⟨1, 1, 1, 1, 1, 0⟩ : Candle).close ∧
      ∃ q, (⟨[.long ⟨0, ⟨1, 100, 100, 0⟩, 2, ⟨1, 100, 100, 0⟩, .strategy⟩], 0,
          2, 100⟩ : TradingSummary).positions = [] ++ [q] ∧
        q.closeReason = .strategy ∧
        q.closeTime = (⟨1, 1, 1, 1, 1, 0⟩ : Candle).time + 1 ∧
        q.closePrice = (⟨1, 1, 1, 1, 1, 0⟩ : Candle).close) ∧
    (∃ st2 lp,
      tick ⟨⟨0, 0⟩, ⟨⟨0, 0, 0⟩, ⟨0, 0, 0⟩, 0, 0⟩, ⟨1, 0, 1000000000⟩, 2, 1,
          true, true⟩
        ⟨.long, false, false, false, false⟩ ⟨1, 1, 1, 1, 1, 0⟩
        ⟨200, some (.short ⟨1, 100, 100, ⟨1, 100, 100, 0⟩⟩), none⟩
        ⟨[], 0, 2, 100⟩ =
        some (st2,
          ⟨[.short ⟨1, 100, 100, ⟨1, 100, 100, 0⟩, 2, ⟨1, 100, 100, 0⟩,
            .strategy⟩], 0, 2, 100⟩, true) ∧
      st2.open_position = some (.long lp) ∧
      lp.time = (⟨1, 1, 1, 1, 1, 0⟩ : Candle).time + 1 ∧
      lp.fill.price = (⟨1, 1, 1, 1, 1, 0⟩ : Candle).close ∧
      ∃ q, (⟨[.short ⟨1, 100, 100, ⟨1, 100, 100, 0⟩, 2, ⟨1, 100, 100, 0⟩,
          .strategy⟩], 0, 2, 100⟩ : TradingSummary).positions = [] ++ [q] ∧
        q.closeReason = .strategy ∧
        q.closeTime = (⟨1, 1, 1, 1, 1, 0⟩ : Candle).time + 1 ∧
        q.closePrice = (⟨1, 1, 1, 1, 1, 0⟩ : Candle).close) := by
  constructor
  · refine claim9_flip_same_tick.1
      ⟨⟨0, 0⟩, ⟨⟨0, 0, 0⟩, ⟨0, 0, 0⟩, 0, 0⟩, ⟨1, 0, 1000000000⟩, 2, 1, true,
        true⟩
      ⟨.short, false, false, false, false⟩ ⟨1, 1, 1, 1, 1, 0⟩
      ⟨0, some (.long ⟨0, ⟨1, 100, 100, 0⟩⟩), none⟩ ⟨[], 0, 2, 100⟩
      ⟨[.long ⟨0, ⟨1, 100, 100, 0⟩, 2, ⟨1, 100, 100, 0⟩, .strategy⟩], 0, 2,
        100⟩
      ⟨0, ⟨1, 100, 100, 0⟩⟩ ⟨100, none, none⟩ rfl rfl rfl ?_ ?_
    · norm_num [close_long_position, OpenLongPosition.base_gain,
        OpenLongPosition.close, Size.round_down, round_down, round_half_up]
    · norm_num [Size.round_down, round_down]
  · refine claim9_flip_same_tick.2
      ⟨⟨0, 0⟩, ⟨⟨0, 0, 0⟩, ⟨0, 0, 0⟩, 0, 0⟩, ⟨1, 0, 1000000000⟩, 2, 1, true,
        true⟩
      ⟨.long, false, false, false, false⟩ ⟨1, 1, 1, 1, 1, 0⟩
      ⟨200, some (.short ⟨1, 100, 100, ⟨1, 100, 100, 0⟩⟩), none⟩
      ⟨[], 0, 2, 100⟩
      ⟨[.short ⟨1, 100, 100, ⟨1, 100, 100, 0⟩, 2, ⟨1, 100, 100, 0⟩,
        .strategy⟩], 0, 2, 100⟩
      ⟨1, 100, 100, ⟨1, 100, 100, 0⟩⟩ ⟨100, none, none⟩ rfl rfl rfl ?_ ?_
    · norm_num [close_short_position, OpenShortPosition.close, ceil_multiple,
        Size.round_down, round_down, round_half_up]
    · norm_num [Size.round_down, round_down]

/-! Claim C3: cash-balance invariant. -/

theorem try_open_long_success_inv (fees : Fees) (filters : Filters)
    (time : ℕ) (price : ℚ) (st st2 : EngineState)
    (hprice : 0 < price) (hmin : 0 ≤ filters.size.min)
    (h : try_open_long_position fees filters time price st = (st2, true)) :
    0 ≤ st2.quote ∧ ∃ lp, st2.open_position = some (.long lp) := by
  unfold try_open_long_position at h
  dsimp only at h
  split_ifs at h with h4
  · simp at h
  · simp only [Prod.mk.injEq] at h
    obtain ⟨hst2, -⟩ := h
    have hne : ¬ st.quote / price < filters.size.min :=
      size_round_down_ne_zero _ _ h4
    have hq0 : 0 ≤ st.quote / price := le_trans hmin (not_lt.mp hne)
    have hle := size_round_down_le filters.size (st.quote / price) hq0
    have hmul : filters.size.round_down (st.quote / price) * price ≤ st.quote :=
      (le_div_iff₀ hprice).mp hle
    have hrd : round_down (price * filters.size.round_down (st.quote / price))
        filters.quote_precision ≤ st.quote := by
      calc round_down (price * filters.size.round_down (st.quote / price))
            filters.quote_precision ≤
          price * filters.size.round_down (st.quote / price) := round_down_le _ _
        _ = filters.size.round_down (st.quote / price) * price := mul_comm _ _
        _ ≤ st.quote := hmul
    rw [← hst2]
    exact ⟨by simpa using sub_nonneg.mpr hrd, _, rfl⟩

theorem close_long_position_inv (fees : Fees) (filters : Filters) (time : ℕ)
    (price : ℚ) (reason : CloseReason) (st st1 : EngineState)
    (sm sm1 : TradingSummary)
    (hprice : 0 < price) (hmin : 0 ≤ filters.size.min)
    (htk0 : 0 ≤ fees.taker) (htk1 : fees.taker ≤ 1)
    (h : close_long_position fees filters time price reason st sm =
      some (st1, sm1)) :
    st.quote - (1 / 2) / 10 ^ filters.quote_precision ≤ st1.quote ∧
    st1.open_position = none := by
  unfold close_long_position at h
  rcases hop : st.open_position with _ | p
  · rw [hop] at h
    simp at h
  · cases p with
    | long lp =>
      rw [hop] at h
      dsimp only at h
      simp only [Option.some.injEq, Prod.mk.injEq] at h
      obtain ⟨hst1, -⟩ := h
      set sz := filters.size.round_down lp.base_gain with hsz_def
      set q := round_down (price * sz) filters.quote_precision with hq_def
      set f := round_half_up (q * fees.taker) filters.quote_precision with hf_def
      have hsz0 : 0 ≤ sz := size_round_down_nonneg _ _ hmin
      have hq0 : 0 ≤ q := round_down_nonneg _ (mul_nonneg hprice.le hsz0)
      have hfee : f ≤ q + (1 / 2) / 10 ^ filters.quote_precision := by
        have h1 := round_half_up_le (q * fees.taker) filters.quote_precision
        have h2 : q * fees.taker ≤ q := mul_le_of_le_one_right hq0 htk1
        rw [← hf_def] at h1
        linarith
      constructor
      · rw [← hst1]
        dsimp only
        linarith
      · rw [← hst1]
    | short sp =>
      rw [hop] at h
      simp at h

theorem tick_close_phase_inv (cfg : TickCfg) (sig : TickSignals) (c : Candle)
    (st stm : EngineState) (sm smm : TradingSummary)
    (hlo : LongOnlyOk cfg) (hc : 0 < c.close)
    (hinv : QuoteInv cfg.filters.quote_precision st)
    (h : tick_close_phase cfg sig c st sm = some (stm, smm)) :
    QuoteInv cfg.filters.quote_precision stm := by
  obtain ⟨hshort0, htk0, htk1, hmin⟩ := hlo
  obtain ⟨hns, hflat, hopen⟩ := hinv
  unfold tick_close_phase at h
  rcases hop : st.open_position with _ | p
  · rw [hop] at h
    dsimp only at h
    simp only [Option.some.injEq, Prod.mk.injEq] at h
    obtain ⟨h1, -⟩ := h
    rw [← h1]
    exact ⟨hns, hflat, hopen⟩
  · cases p with
    | long lp =>
      rw [hop] at h
      dsimp only at h
      have hq0 : 0 ≤ st.quote := hopen (by rw [hop]; rfl)
      have hclose : ∀ reason,
          close_long_position cfg.fees cfg.filters (c.time + cfg.interval)
            c.close reason st sm = some (stm, smm) →
          QuoteInv cfg.filters.quote_precision stm := by
        intro reason hcl
        obtain ⟨hq, hn⟩ := close_long_position_inv cfg.fees cfg.filters
          (c.time + cfg.interval) c.close reason st stm sm smm hc hmin htk0
          htk1 hcl
        refine ⟨by rw [hn]; rfl, fun _ => by rw [neg_div]; linarith,
          fun habs => ?_⟩
        rw [hn] at habs
        simp at habs
      split_ifs at h with h1 h2 h3
      · exact hclose _ h
      · exact hclose _ h
      · exact hclose _ h
      · simp only [Option.some.injEq, Prod.mk.injEq] at h
        obtain ⟨h4, -⟩ := h
        rw [← h4]
        exact ⟨hns, hflat, hopen⟩
    | short sp =>
      rw [hop] at hns
      simp [is_short_open] at hns

theorem tick_open_phase_inv (cfg : TickCfg) (sig : TickSignals) (c : Candle)
    (stm st2 : EngineState) (b : Bool)
    (hlo : LongOnlyOk cfg) (hc : 0 < c.close)
    (hinv : QuoteInv cfg.filters.quote_precision stm)
    (h : tick_open_phase cfg sig c stm = (st2, b)) :
    QuoteInv cfg.filters.quote_precision st2 := by
  obtain ⟨hshort0, htk0, htk1, hmin⟩ := hlo
  unfold tick_open_phase at h
  split_ifs at h with h1 h2 h3
  · rcases hb : b with _ | _
    · rw [hb] at h
      obtain ⟨he, -⟩ := tick_open_phase_false cfg sig c stm st2
        (by rw [tick_open_phase, if_pos h1, if_pos h2]; exact h)
      rw [he]
      exact hinv
    · rw [hb] at h
      obtain ⟨hq, lp, hlp⟩ := try_open_long_success_inv cfg.fees cfg.filters
        (c.time + cfg.interval) c.close stm st2 hc hmin h
      exact ⟨by rw [hlp]; rfl, fun habs => by rw [hlp] at habs; simp at habs,
        fun _ => hq⟩
  · rw [hshort0] at h3
    simp at h3
  · simp only [Prod.mk.injEq] at h
    obtain ⟨he, -⟩ := h
    rw [← he]
    exact hinv
  · simp only [Prod.mk.injEq] at h
    obtain ⟨he, -⟩ := h
    rw [← he]
    exact hinv

theorem tick_quote_inv (cfg : TickCfg) (sig : TickSignals) (c : Candle)
    (st st1 : EngineState) (sm sm1 : TradingSummary) (b : Bool)
    (hlo : LongOnlyOk cfg) (hc : 0 < c.close)
    (hinv : QuoteInv cfg.filters.quote_precision st)
    (h : tick cfg sig c st sm = some (st1, sm1, b)) :
    QuoteInv cfg.filters.quote_precision st1 := by
  unfold tick at h
  rcases hcl : tick_close_phase cfg sig c st sm with _ | ⟨stm, smm⟩
  · rw [hcl] at h
    simp at h
  · rw [hcl] at h
    dsimp only at h
    have hinvm := tick_close_phase_inv cfg sig c st stm sm smm hlo hc hinv hcl
    rcases hopn : tick_open_phase cfg sig c stm with ⟨st2, b2⟩
    rw [hopn] at h
    have hinv2 := tick_open_phase_inv cfg sig c stm st2 b2 hlo hc hinvm hopn
    cases b2 with
    | true =>
      simp only [if_true, Option.some.injEq, Prod.mk.injEq] at h
      obtain ⟨h1, -, -⟩ := h
      rw [← h1]
      exact hinv2
    | false =>
      simp only [Bool.false_eq_true, if_false, Option.some.injEq,
        Prod.mk.injEq] at h
      obtain ⟨h1, -, -⟩ := h
      rw [← h1]
      exact hinv2

theorem trade_loop_quote_inv (cfg : TickCfg) (sigs : ℕ → TickSignals)
    (hlo : LongOnlyOk cfg) :
    ∀ (cs : List Candle) (i : ℕ) (st st1 : EngineState)
      (sm sm1 : TradingSummary),
      (∀ c ∈ cs, 0 < c.close) →
      QuoteInv cfg.filters.quote_precision st →
      trade_loop cfg sigs cs i st sm = some (st1, sm1) →
      QuoteInv cfg.filters.quote_precision st1 := by
  intro cs
  induction cs with
  | nil =>
    intro i st st1 sm sm1 hc hinv h
    simp only [trade_loop, Option.some.injEq, Prod.mk.injEq] at h
    rw [← h.1]
    exact hinv
  | cons c cs ih =>
    intro i st st1 sm sm1 hc hinv h
    rcases htk : tick cfg (sigs i) c st sm with _ | ⟨st2, sm2, b⟩
    · simp only [trade_loop, htk] at h
      exact Option.noConfusion h
    · have hinv2 := tick_quote_inv cfg (sigs i) c st st2 sm sm2 b hlo
        (hc c (List.mem_cons_self c cs)) hinv htk
      simp only [trade_loop, htk] at h
      cases b with
      | true =>
        exact ih (i + 1) st2 st1 sm2 sm1
          (fun x hx => hc x (List.mem_cons_of_mem c hx)) hinv2 h
      | false =>
        simp only [Option.some.injEq, Prod.mk.injEq] at h
        rw [← h.1]
        exact hinv2

/-- Claim C3 (amended): with short trading disabled, a taker fee rate in
`[0, 1]`, a nonnegative size-filter minimum, positive candle closes and a
nonnegative starting balance, the cash balance after every tick of the
candle loop is at least `-(1/2)·10^(-quote_precision)`, which is strictly
above the claimed `-10^(-quote_precision)` tolerance. -/
theorem claim3_long_only_cash (cfg : TickCfg) (sigs : ℕ → TickSignals)
    (candles : List Candle) (q0 : ℚ) (sm : TradingSummary)
    (hlo : LongOnlyOk cfg) (hq0 : 0 ≤ q0)
    (hc : ∀ c ∈ candles, 0 < c.close) :
    ∀ (n : ℕ) (st1 : EngineState) (sm1 : TradingSummary),
      trade_loop cfg sigs (candles.take n) 0 ⟨q0, none, none⟩ sm =
        some (st1, sm1) →
      -(1 / 2) / 10 ^ cfg.filters.quote_precision ≤ st1.quote ∧
      -(1 : ℚ) / 10 ^ cfg.filters.quote_precision < st1.quote := by
  intro n st1 sm1 h
  have h10 : (0 : ℚ) < 10 ^ cfg.filters.quote_precision := by positivity
  have hinv0 : QuoteInv cfg.filters.quote_precision ⟨q0, none, none⟩ := by
    refine ⟨rfl, fun _ => ?_, fun habs => by simp at habs⟩
    have hneg : -((1 : ℚ) / 2) / 10 ^ cfg.filters.quote_precision ≤ 0 := by
      rw [neg_div, neg_nonpos]
      positivity
    exact le_trans hneg hq0
  have hinv1 := trade_loop_quote_inv cfg sigs hlo (candles.take n) 0
    ⟨q0, none, none⟩ st1 sm sm1
    (fun c hmem => hc c (List.take_subset n candles hmem)) hinv0 h
  obtain ⟨-, hflat, hopen⟩ := hinv1
  have hbound : -(1 / 2) / 10 ^ cfg.filters.quote_precision ≤ st1.quote := by
    rcases hn : st1.open_position.isNone with _ | _
    · have hq1 := hopen hn
      have hh : -((1 : ℚ) / 2) / 10 ^ cfg.filters.quote_precision ≤ 0 := by
        rw [neg_div, neg_nonpos]
        positivity
      linarith
    · exact hflat hn
  refine ⟨hbound, lt_of_lt_of_le ?_ hbound⟩
  rw [div_lt_div_iff h10 h10]
  nlinarith

/-- Claim C3 counterexample: quote 100, short trading enabled, margin
multiplier 2, zero fees and interest, unit precisions; a short of 100 base
opened at price 1 and strategy-closed at price 10 leaves the cash balance at
`-800` after that tick, far below the claimed `-10^(-quote_precision) = -1`
tolerance. -/
theorem claim3_long_only_cash_counterexample :
    trade_loop
      ⟨⟨0, 0⟩, ⟨⟨0, 0, 0⟩, ⟨0, 0, 0⟩, 0, 0⟩, ⟨1, 0, 1000000000⟩, 2, 1, false,
        true⟩
      (fun i => if i = 0 then ⟨.short, false, false, false, false⟩
        else ⟨.long, false, false, false, false⟩)
      [⟨0, 1, 1, 1, 1, 0⟩, ⟨1, 10, 10, 10, 10, 0⟩] 0 ⟨100, none, none⟩
      ⟨[], 0, 2, 100⟩ =
      some (⟨-800, none, some ⟨1, 10, 10, 10, 10, 0⟩⟩,
        ⟨[.short ⟨1, 100, 100, ⟨1, 100, 100, 0⟩, 2, ⟨10, 100, 1000, 0⟩,
          .strategy⟩], 0, 2, 100⟩) ∧
      (-800 : ℚ) < -(1 : ℚ) / 10 ^ (0 : ℕ) := by
  constructor
  · norm_num [trade_loop, tick, tick_close_phase, tick_open_phase,
      try_open_long_position, try_open_short_position, close_long_position,
      close_short_position, OpenShortPosition.close, ceil_multiple,
      Size.round_down, round_down, round_half_up]
    decide
  · norm_num

/-- Witness for claim C3: the amended theorem applied to a one-candle
long-only run with quote 100 and price 1 (the long open leaves balance 0,
within the tolerance). -/
theorem claim3_long_only_cash_witness :
    (LongOnlyOk ⟨⟨0, 0⟩, ⟨⟨0, 0, 0⟩, ⟨0, 0, 0⟩, 0, 0⟩, ⟨1, 0, 1000000000⟩, 2,
        1, true, false⟩ ∧
      (0 : ℚ) ≤ 100 ∧
      (∀ c ∈ [(⟨0, 1, 1, 1, 1, 0⟩ : Candle)], 0 < c.close) ∧
      trade_loop
        ⟨⟨0, 0⟩, ⟨⟨0, 0, 0⟩, ⟨0, 0, 0⟩, 0, 0⟩, ⟨1, 0, 1000000000⟩, 2, 1, true,
          false⟩
        (fun _ => ⟨.long, false, false, false, false⟩)
        ([(⟨0, 1, 1, 1, 1, 0⟩ : Candle)].take 1) 0 ⟨100, none, none⟩
        ⟨[], 0, 1, 100⟩ =
        some (⟨0, some (.long ⟨1, ⟨1, 100, 100, 0⟩⟩), some ⟨0, 1, 1, 1, 1, 0⟩⟩,
          ⟨[], 0, 1, 100⟩)) ∧
    (-(1 / 2) / 10 ^ (0 : ℕ) ≤ (0 : ℚ) ∧ -(1 : ℚ) / 10 ^ (0 : ℕ) < 0) := by
  have hloop : trade_loop
      ⟨⟨0, 0⟩, ⟨⟨0, 0, 0⟩, ⟨0, 0, 0⟩, 0, 0⟩, ⟨1, 0, 1000000000⟩, 2, 1, true,
        false⟩
      (fun _ => ⟨.long, false, false, false, false⟩)
      ([(⟨0, 1, 1, 1, 1, 0⟩ : Candle)].take 1) 0 ⟨100, none, none⟩
      ⟨[], 0, 1, 100⟩ =
      some (⟨0, some (.long ⟨1, ⟨1, 100, 100, 0⟩⟩), some ⟨0, 1, 1, 1, 1, 0⟩⟩,
        ⟨[], 0, 1, 100⟩) := by
    norm_num [trade_loop, tick, tick_close_phase, tick_open_phase,
      try_open_long_position, Size.round_down, round_down, round_half_up]
  refine ⟨⟨⟨rfl, by norm_num, by norm_num, by norm_num⟩, by norm_num,
    by norm_num, hloop⟩, ?_⟩
  exact claim3_long_only_cash
    ⟨⟨0, 0⟩, ⟨⟨0, 0, 0⟩, ⟨0, 0, 0⟩, 0, 0⟩, ⟨1, 0, 1000000000⟩, 2, 1, true,
      false⟩
    (fun _ => ⟨.long, false, false, false, false⟩) [⟨0, 1, 1, 1, 1, 0⟩] 100
    ⟨[], 0, 1, 100⟩ ⟨rfl, by norm_num, by norm_num, by norm_num⟩
    (by norm_num) (by norm_num) 1 _ _ hloop

/-! Claim C4: timestamp floor/ceil alignment. -/

theorem int_floor_mult_le (t : ℤ) (m : ℕ) (hm : 0 < (m : ℤ)) :
    t / m * m ≤ t :=
  Int.ediv_mul_le t hm.ne'

theorem int_floor_mult_idem (t : ℤ) (m : ℕ) (hm : 0 < (m : ℤ)) :
    t / m * m / m * m = t / m * m := by
  rw [Int.mul_ediv_cancel _ hm.ne']

theorem int_ceil_mult_ge (t : ℤ) (m : ℕ) (hm : 0 < (m : ℤ)) :
    t ≤ (t + m - 1) / m * m := by
  have h := Int.lt_ediv_add_one_mul_self (t + m - 1) hm
  have hexp : ((t + m - 1) / m + 1) * m = (t + m - 1) / m * m + m := by ring
  rw [hexp] at h
  linarith

theorem int_ceil_mult_idem (t : ℤ) (m : ℕ) (hm : 0 < (m : ℤ)) :
    (t / m * m + m - 1) / m * m = t / m * m := by
  have hrw : t / m * m + m - 1 = m - 1 + m * (t / m) := by ring
  rw [hrw, Int.add_mul_ediv_left _ _ hm.ne',
    Int.ediv_eq_zero_of_lt (by linarith) (by linarith)]
  ring

theorem days_in_year_pos (y : ℕ) : 0 < days_in_year y := by
  unfold days_in_year
  split <;> norm_num

theorem days_in_year_ge (y : ℕ) : 365 ≤ days_in_year y := by
  unfold days_in_year
  split <;> norm_num

theorem days_to_year_succ (k : ℕ) :
    days_to_year (k + 1) = days_to_year k + days_in_year (1970 + k) := rfl

theorem days_to_year_mono : Monotone days_to_year :=
  monotone_nat_of_le_succ fun n => by
    rw [days_to_year_succ]
    exact Nat.le_add_right _ _

theorem ymd_go_eq : ∀ (fuel d0 k0 k : ℕ), k0 ≤ k →
    days_to_year k ≤ days_to_year k0 + d0 →
    days_to_year k0 + d0 < days_to_year (k + 1) →
    d0 ≤ fuel →
    ymd_go fuel k0 d0 = (k, days_to_year k0 + d0 - days_to_year k) := by
  intro fuel
  induction fuel with
  | zero =>
    intro d0 k0 k hk hle hlt hf
    have hd0 : d0 = 0 := Nat.le_zero.mp hf
    subst hd0
    have hk2 : k = k0 := by
      by_contra hne
      have hgt : k0 + 1 ≤ k := lt_of_le_of_ne hk (Ne.symm hne)
      have h1 := days_to_year_mono hgt
      have h2 := days_to_year_succ k0
      have h3 := days_in_year_pos (1970 + k0)
      omega
    subst hk2
    simp [ymd_go]
  | succ fuel ih =>
    intro d0 k0 k hk hle hlt hf
    by_cases hd : d0 < days_in_year (1970 + k0)
    · have hk2 : k = k0 := by
        by_contra hne
        have hgt : k0 + 1 ≤ k := lt_of_le_of_ne hk (Ne.symm hne)
        have h1 := days_to_year_mono hgt
        have h2 := days_to_year_succ k0
        omega
      subst hk2
      simp only [ymd_go, if_pos hd]
      congr 1
      omega
    · push_neg at hd
      have h2 := days_to_year_succ k0
      have hk2 : k0 + 1 ≤ k := by
        by_contra hne
        push_neg at hne
        have : k = k0 := le_antisymm (Nat.lt_succ_iff.mp hne) hk
        subst this
        omega
      have hge := days_in_year_ge (1970 + k0)
      have hih := ih (d0 - days_in_year (1970 + k0)) (k0 + 1) k hk2
        (by omega) (by omega) (by omega)
      simp only [ymd_go, if_neg (not_lt.mpr hd)]
      rw [hih]
      congr 1
      omega

theorem ymd_go_spec : ∀ (fuel k0 d0 : ℕ), d0 ≤ fuel →
    days_to_year k0 + d0 =
      days_to_year (ymd_go fuel k0 d0).1 + (ymd_go fuel k0 d0).2 ∧
    (ymd_go fuel k0 d0).2 < days_in_year (1970 + (ymd_go fuel k0 d0).1) ∧
    k0 ≤ (ymd_go fuel k0 d0).1 := by
  intro fuel
  induction fuel with
  | zero =>
    intro k0 d0 hf
    have hd0 : d0 = 0 := Nat.le_zero.mp hf
    subst hd0
    refine ⟨by simp [ymd_go], ?_, by simp [ymd_go]⟩
    simpa [ymd_go] using days_in_year_pos (1970 + k0)
  | succ fuel ih =>
    intro k0 d0 hf
    by_cases hd : d0 < days_in_year (1970 + k0)
    · simp only [ymd_go, if_pos hd]
      exact ⟨trivial, hd, le_refl _⟩
    · push_neg at hd
      have hge := days_in_year_ge (1970 + k0)
      obtain ⟨ha, hb, hc⟩ := ih (k0 + 1) (d0 - days_in_year (1970 + k0))
        (by omega)
      have h2 := days_to_year_succ k0
      simp only [ymd_go, if_neg (not_lt.mpr hd)]
      exact ⟨by omega, hb, le_trans (Nat.le_succ k0) hc⟩

theorem month_from_year_day_spec : ∀ (lens : List ℕ) (m0 d : ℕ),
    d < lens.sum →
    m0 ≤ (month_from_year_day lens m0 d).1 ∧
    (month_from_year_day lens m0 d).1 - m0 < lens.length ∧
    (lens.take ((month_from_year_day lens m0 d).1 - m0)).sum +
      (month_from_year_day lens m0 d).2 = d ∧
    (month_from_year_day lens m0 d).2 <
      lens.getD ((month_from_year_day lens m0 d).1 - m0) 0 := by
  intro lens
  induction lens with
  | nil =>
    intro m0 d hd
    simp at hd
  | cons l ls ih =>
    intro m0 d hd
    by_cases h : d < l
    · simp only [month_from_year_day, if_pos h]
      refine ⟨le_refl _, by simp, by simp, by simpa using h⟩
    · simp only [month_from_year_day, if_neg h]
      push_neg at h
      have hd2 : d - l < ls.sum := by
        simp only [List.sum_cons] at hd
        omega
      obtain ⟨h1, h2, h3, h4⟩ := ih (m0 + 1) (d - l) hd2
      have hsub : (month_from_year_day ls (m0 + 1) (d - l)).1 - m0 =
          ((month_from_year_day ls (m0 + 1) (d - l)).1 - (m0 + 1)) + 1 := by
        omega
      refine ⟨by omega, ?_, ?_, ?_⟩
      · simp only [List.length_cons]
        omega
      · rw [hsub, List.take_succ_cons, List.sum_cons]
        omega
      · rw [hsub, List.getD_cons_succ]
        exact h4

theorem month_from_year_day_take : ∀ (lens : List ℕ) (j m0 : ℕ),
    j < lens.length → (∀ l ∈ lens, 0 < l) →
    month_from_year_day lens m0 ((lens.take j).sum) = (m0 + j, 0) := by
  intro lens
  induction lens with
  | nil =>
    intro j m0 hj
    simp at hj
  | cons l ls ih =>
    intro j m0 hj hpos
    cases j with
    | zero =>
      simp only [List.take_zero, List.sum_nil, month_from_year_day]
      rw [if_pos (hpos l (List.mem_cons_self l ls))]
      simp
    | succ j =>
      simp only [List.take_succ_cons, List.sum_cons, month_from_year_day]
      rw [if_neg (by omega)]
      have hsub : l + (ls.take j).sum - l = (ls.take j).sum := by omega
      rw [hsub, ih j (m0 + 1) (by simpa using hj)
        (fun x hx => hpos x (List.mem_cons_of_mem l hx))]
      congr 1
      omega

theorem month_lengths_sum (y : ℕ) : (month_lengths y).sum = days_in_year y := by
  cases h : is_leap y <;> norm_num [month_lengths, days_in_year, h]

theorem month_lengths_length (y : ℕ) : (month_lengths y).length = 12 := by
  cases h : is_leap y <;> simp [month_lengths, h]

theorem month_lengths_pos (y : ℕ) : ∀ l ∈ month_lengths y, 0 < l := by
  intro l hl
  simp only [month_lengths, List.mem_cons, List.not_mem_nil, or_false] at hl
  rcases hl with rfl | rfl | rfl | rfl | rfl | rfl | rfl | rfl | rfl | rfl |
    rfl | rfl
  all_goals first | (split <;> norm_num) | norm_num

theorem sum_take_lt_of_lt {l : List ℕ} {j : ℕ} (hj : j < l.length)
    (hpos : ∀ x ∈ l, 0 < x) : (l.take j).sum < l.sum := by
  have hsplit := List.sum_take_add_sum_drop l j
  have hdrop : l.drop j ≠ [] := by
    intro hnil
    rw [List.drop_eq_nil_iff_le] at hnil
    omega
  obtain ⟨x, xs, hx⟩ := List.exists_cons_of_ne_nil hdrop
  have hxmem : x ∈ l := by
    have hxd : x ∈ l.drop j := by
      rw [hx]
      exact List.mem_cons_self _ _
    exact List.mem_of_mem_drop hxd
  have hxpos := hpos x hxmem
  have hdsum : x ≤ (l.drop j).sum := by
    rw [hx, List.sum_cons]
    omega
  omega

theorem sum_take_succ_nat (l : List ℕ) (j : ℕ) (hj : j < l.length) :
    (l.take (j + 1)).sum = (l.take j).sum + l.getD j 0 := by
  rw [List.take_succ, List.sum_append, List.getD_eq_getElem?_getD]
  rcases hg : l[j]? with _ | v
  · rw [List.getElem?_eq_none_iff] at hg
    omega
  · simp [hg]

theorem days_to_month_lt (y m : ℕ) (hm : m ≤ 12) :
    days_to_month y m < days_in_year y := by
  unfold days_to_month
  rw [← month_lengths_sum]
  refine sum_take_lt_of_lt ?_ (month_lengths_pos y)
  rw [month_lengths_length]
  omega

theorem civil_from_days_first (y m : ℕ) (hy : 1970 ≤ y) (hm1 : 1 ≤ m)
    (hm2 : m ≤ 12) :
    civil_from_days (days_from_civil_first y m) = (y, m, 1) := by
  unfold civil_from_days days_from_civil_first
  have hyy : 1970 + (y - 1970) = y := by omega
  have hymd : ymd_go (days_to_year (y - 1970) + days_to_month y m) 0
      (days_to_year (y - 1970) + days_to_month y m) =
      (y - 1970, days_to_month y m) := by
    have hlt : days_to_month y m < days_in_year (1970 + (y - 1970)) := by
      rw [hyy]
      exact days_to_month_lt y m hm2
    have h0 : days_to_year 0 = 0 := rfl
    have hsucc := days_to_year_succ (y - 1970)
    have happ := ymd_go_eq (days_to_year (y - 1970) + days_to_month y m)
      (days_to_year (y - 1970) + days_to_month y m) 0 (y - 1970)
      (Nat.zero_le _) (by omega) (by omega) (le_refl _)
    rw [happ, Prod.mk.injEq]
    exact ⟨rfl, by omega⟩
  rw [hymd]
  dsimp only
  rw [hyy]
  have hscan := month_from_year_day_take (month_lengths y) (m - 1) 1
    (by rw [month_lengths_length]; omega) (month_lengths_pos y)
  unfold days_to_month
  rw [hscan]
  have hm' : 1 + (m - 1) = m := by omega
  rw [hm']

theorem civil_from_days_spec (d : ℕ) :
    1970 ≤ (civil_from_days d).1 ∧ 1 ≤ (civil_from_days d).2.1 ∧
    (civil_from_days d).2.1 ≤ 12 ∧
    days_from_civil_first (civil_from_days d).1 (civil_from_days d).2.1 ≤ d ∧
    d < days_from_civil_first
      (if (civil_from_days d).2.1 = 12 then (civil_from_days d).1 + 1
        else (civil_from_days d).1)
      (if (civil_from_days d).2.1 = 12 then 1
        else (civil_from_days d).2.1 + 1) := by
  obtain ⟨ha, hb, -⟩ := ymd_go_spec d 0 d (le_refl d)
  rcases hygo : ymd_go d 0 d with ⟨k, dy⟩
  rw [hygo] at ha hb
  dsimp only at ha hb
  have h0 : days_to_year 0 = 0 := rfl
  rw [h0, Nat.zero_add] at ha
  have hbsum : dy < (month_lengths (1970 + k)).sum := by
    rw [month_lengths_sum]
    exact hb
  obtain ⟨h1, h2, h3, h4⟩ := month_from_year_day_spec
    (month_lengths (1970 + k)) 1 dy hbsum
  rcases hmfd : month_from_year_day (month_lengths (1970 + k)) 1 dy
    with ⟨m, dm⟩
  rw [hmfd] at h1 h2 h3 h4
  dsimp only at h1 h2 h3 h4
  rw [month_lengths_length] at h2
  have hcd : civil_from_days d = (1970 + k, m, dm + 1) := by
    unfold civil_from_days
    rw [hygo]
    dsimp only
    rw [hmfd]
  rw [hcd]
  dsimp only
  have hdfc : days_from_civil_first (1970 + k) m =
      days_to_year k + days_to_month (1970 + k) m := by
    have hk : 1970 + k - 1970 = k := by omega
    unfold days_from_civil_first
    rw [hk]
  refine ⟨by omega, h1, by omega, ?_, ?_⟩
  · rw [hdfc]
    unfold days_to_month
    omega
  · by_cases hm12 : m = 12
    · rw [if_pos hm12, if_pos hm12]
      have hnext : days_from_civil_first (1970 + k + 1) 1 =
          days_to_year (k + 1) := by
        unfold days_from_civil_first days_to_month
        have e1 : (1 : ℕ) - 1 = 0 := rfl
        have e2 : 1970 + k + 1 - 1970 = k + 1 := by omega
        rw [e1, e2]
        simp
      have hsucc := days_to_year_succ k
      rw [hnext]
      omega
    · rw [if_neg hm12, if_neg hm12]
      have hm11 : m - 1 < (month_lengths (1970 + k)).length := by
        rw [month_lengths_length]
        omega
      have hstep := sum_take_succ_nat (month_lengths (1970 + k)) (m - 1) hm11
      have hdfc2 : days_from_civil_first (1970 + k) (m + 1) =
          days_to_year k +
            ((month_lengths (1970 + k)).take (m - 1 + 1)).sum := by
        unfold days_from_civil_first days_to_month
        have he : m + 1 - 1 = m - 1 + 1 := by omega
        have hk : 1970 + k - 1970 = k := by omega
        rw [he, hk]
      rw [hdfc2, hstep]
      omega

theorem month_floor_le (t : ℕ) : month_floor t ≤ t := by
  obtain ⟨-, -, -, hle, -⟩ := civil_from_days_spec (t / DAY_MS)
  unfold month_floor
  calc days_from_civil_first (civil_from_days (t / DAY_MS)).1
        (civil_from_days (t / DAY_MS)).2.1 * DAY_MS ≤
      t / DAY_MS * DAY_MS := Nat.mul_le_mul_right _ hle
    _ ≤ t := Nat.div_mul_le_self t DAY_MS

theorem month_floor_idem (t : ℕ) : month_floor (month_floor t) = month_floor t := by
  obtain ⟨hy, hm1, hm2, -, -⟩ := civil_from_days_spec (t / DAY_MS)
  unfold month_floor
  have hday : 0 < DAY_MS := by norm_num [DAY_MS]
  rw [Nat.mul_div_cancel _ hday,
    civil_from_days_first _ _ hy hm1 hm2]

theorem month_ceil_gt (t : ℕ) : t < month_ceil t := by
  obtain ⟨-, -, -, -, hlt⟩ := civil_from_days_spec (t / DAY_MS)
  unfold month_ceil
  have hday : 0 < DAY_MS := by norm_num [DAY_MS]
  have hmod := Nat.div_add_mod t DAY_MS
  have hmlt := Nat.mod_lt t hday
  by_cases h12 : (civil_from_days (t / DAY_MS)).2.1 = 12
  · simp only [if_pos h12] at hlt ⊢
    try dsimp only at hlt ⊢
    simp only [DAY_MS] at hmod hmlt hlt ⊢
    set N := days_from_civil_first ((civil_from_days (t / 86400000)).1 + 1) 1
    omega
  · simp only [if_neg h12] at hlt ⊢
    try dsimp only at hlt ⊢
    simp only [DAY_MS] at hmod hmlt hlt ⊢
    set N := days_from_civil_first (civil_from_days (t / 86400000)).1
      ((civil_from_days (t / 86400000)).2.1 + 1)
    omega

theorem floor_multiple_offset_idem (x : ℤ) (m : ℕ) (o : ℤ) (hm : 0 < (m : ℤ)) :
    floor_multiple_offset (floor_multiple_offset x m o) m o =
      floor_multiple_offset x m o := by
  unfold floor_multiple_offset
  rw [add_sub_cancel_right, Int.mul_ediv_cancel _ hm.ne']

theorem floor_multiple_offset_le (x : ℤ) (m : ℕ) (o : ℤ) (hm : 0 < (m : ℤ)) :
    floor_multiple_offset x m o ≤ x := by
  unfold floor_multiple_offset
  have h := int_floor_mult_le (x - o) m hm
  linarith

theorem ceil_multiple_offset_ge (x : ℤ) (m : ℕ) (o : ℤ) (hm : 0 < (m : ℤ)) :
    x ≤ ceil_multiple_offset x m o := by
  unfold ceil_multiple_offset
  have h := int_ceil_mult_ge (x - o) m hm
  linarith

theorem ceil_multiple_offset_idem (x : ℤ) (m : ℕ) (o : ℤ) (hm : 0 < (m : ℤ)) :
    ceil_multiple_offset (ceil_multiple_offset x m o) m o =
      ceil_multiple_offset x m o := by
  unfold ceil_multiple_offset
  rw [add_sub_cancel_right, int_ceil_mult_idem _ _ hm]

/-- Claim C4 (amended): for intervals below one week and for `WEEK_MS`,
floor and ceil are both idempotent and bracket the timestamp
(`floor t i ≤ t ≤ ceil t i`); for `MONTH_MS`, floor is idempotent and the
bracketing holds, but ceil always advances to the next month start, so
`ceil (ceil t) > ceil t` — the claimed ceil idempotence fails for the month
interval. -/
theorem claim4_floor_ceil (t : ℕ) (i : ℕ) :
    (((0 < i ∧ i < WEEK_MS) ∨ i = WEEK_MS) →
      Timestamp.floor (Timestamp.floor ((t : ℕ) : ℤ) i) i =
        Timestamp.floor ((t : ℕ) : ℤ) i ∧
      Timestamp.ceil (Timestamp.ceil ((t : ℕ) : ℤ) i) i =
        Timestamp.ceil ((t : ℕ) : ℤ) i ∧
      Timestamp.floor ((t : ℕ) : ℤ) i ≤ ((t : ℕ) : ℤ) ∧
      ((t : ℕ) : ℤ) ≤ Timestamp.ceil ((t : ℕ) : ℤ) i) ∧
    (Timestamp.floor (Timestamp.floor ((t : ℕ) : ℤ) MONTH_MS) MONTH_MS =
      Timestamp.floor ((t : ℕ) : ℤ) MONTH_MS ∧
      Timestamp.floor ((t : ℕ) : ℤ) MONTH_MS ≤ ((t : ℕ) : ℤ) ∧
      ((t : ℕ) : ℤ) ≤ Timestamp.ceil ((t : ℕ) : ℤ) MONTH_MS ∧
      Timestamp.ceil ((t : ℕ) : ℤ) MONTH_MS <
        Timestamp.ceil (Timestamp.ceil ((t : ℕ) : ℤ) MONTH_MS) MONTH_MS) := by
  constructor
  · rintro (⟨hpos, hlt⟩ | rfl)
    · have hm : 0 < (i : ℤ) := by exact_mod_cast hpos
      simp only [Timestamp.floor, Timestamp.ceil, if_pos hlt]
      exact ⟨int_floor_mult_idem _ _ hm,
        int_ceil_mult_idem _ _ hm,
        int_floor_mult_le _ _ hm,
        int_ceil_mult_ge _ _ hm⟩
    · have hm : 0 < ((WEEK_MS : ℕ) : ℤ) := by norm_num [WEEK_MS]
      simp only [Timestamp.floor, Timestamp.ceil, lt_self_iff_false, if_false,
        eq_self_iff_true, if_true]
      exact ⟨floor_multiple_offset_idem _ _ _ hm,
        ceil_multiple_offset_idem _ _ _ hm,
        floor_multiple_offset_le _ _ _ hm,
        ceil_multiple_offset_ge _ _ _ hm⟩
  · have h1 : ¬ MONTH_MS < WEEK_MS := by norm_num [MONTH_MS, WEEK_MS]
    have h2 : MONTH_MS ≠ WEEK_MS := by norm_num [MONTH_MS, WEEK_MS]
    simp only [Timestamp.floor, Timestamp.ceil, if_neg h1, if_neg h2,
      eq_self_iff_true, if_true, Int.toNat_natCast]
    refine ⟨?_, ?_, ?_, ?_⟩
    · exact_mod_cast month_floor_idem t
    · exact_mod_cast month_floor_le t
    · exact_mod_cast (month_ceil_gt t).le
    · exact_mod_cast month_ceil_gt (month_ceil t)

/-- Claim C4 counterexample: `ceil` at `MONTH_MS` is not idempotent —
applied to 2020-02-01T00:00:00Z (already a month start, and itself a month
ceiling) it advances to 2020-03-01, and applied again to 2020-04-01. -/
theorem claim4_floor_ceil_counterexample :
    Timestamp.ceil (Timestamp.ceil ((1580515200000 : ℕ) : ℤ) MONTH_MS)
      MONTH_MS ≠ Timestamp.ceil ((1580515200000 : ℕ) : ℤ) MONTH_MS := by
  decide

/-- Witness for claim C4: the amended theorem evaluated at `t = 5` with the
sub-week interval `2`. -/
theorem claim4_floor_ceil_witness :
    ((0 < 2 ∧ 2 < WEEK_MS) ∨ 2 = WEEK_MS) ∧
    (Timestamp.floor (Timestamp.floor ((5 : ℕ) : ℤ) 2) 2 =
      Timestamp.floor ((5 : ℕ) : ℤ) 2 ∧
      Timestamp.ceil (Timestamp.ceil ((5 : ℕ) : ℤ) 2) 2 =
        Timestamp.ceil ((5 : ℕ) : ℤ) 2 ∧
      Timestamp.floor ((5 : ℕ) : ℤ) 2 ≤ ((5 : ℕ) : ℤ) ∧
      ((5 : ℕ) : ℤ) ≤ Timestamp.ceil ((5 : ℕ) : ℤ) 2) :=
  ⟨Or.inl ⟨by decide, by decide⟩,
    (claim4_floor_ceil 5 2).1 (Or.inl ⟨by decide, by decide⟩)⟩

/-! Claim C10: interval parsing. -/

end Juno
